import Mathlib

/-!
Verification development for the watcher/actor pipeline
(`backend/watchers/*`, `backend/mcp_servers/*`, `backend/utils/frontmatter.py`).

Python source code is shallowly embedded as executable Lean definitions:
strings become `String`/`List Char`, floats from `time.time()` become `ℚ`,
stateful code becomes explicit state passing, and side effects that the
properties talk about (file writes, ledger writes, log entries, sleeps,
re-authentication) are reified as explicit event traces.
-/

set_option maxRecDepth 10000

/-! ## Generic string helpers (model Python `str` operations) -/

/-- Model of Python's substring test `needle in hay` (checked on char lists):
`true` iff `needle` occurs contiguously inside `hay`. -/
def containsSub (hay needle : List Char) : Bool :=
  match hay with
  | [] => needle.isEmpty
  | _ :: t => needle.isPrefixOf hay || containsSub t needle

/-- Model of Python's `str.lower()` (ASCII case folding, which is all the
source's keyword lists need). -/
def lowerStr (s : String) : String :=
  String.mk (s.toList.map Char.toLower)

/-- `strContainsSub text kw` models Python's `kw in text` on strings. -/
def strContainsSub (text kw : String) : Bool :=
  containsSub text.toList kw.toList

/-! ## Priority classification (`backend/watchers/linkedin_watcher.py`) -/

/-- `DEFAULT_KEYWORDS` from `linkedin_watcher.py`. -/
def DEFAULT_KEYWORDS : List String :=
  ["opportunity", "invoice", "project", "meeting", "urgent", "proposal",
   "partnership", "job"]

/-- `HIGH_PRIORITY_KEYWORDS` from `linkedin_watcher.py` (a Python `set`;
membership is all the source uses, so a list with `contains` models it). -/
def HIGH_PRIORITY_KEYWORDS : List String := ["urgent", "invoice", "proposal"]

/-- `MEDIUM_PRIORITY_KEYWORDS` from `linkedin_watcher.py`. -/
def MEDIUM_PRIORITY_KEYWORDS : List String :=
  ["opportunity", "project", "meeting", "job", "partnership"]

/-- The keyword loop body of `_classify_priority`: scan `keywords` in list
order against the already-lowercased text. -/
def classifyAux (textLower : String) : List String → String × Option String
  | [] => ("low", none)
  | kw :: rest =>
    if strContainsSub textLower (lowerStr kw) then
      let kwLower := lowerStr kw
      if HIGH_PRIORITY_KEYWORDS.contains kwLower then ("high", some kw)
      else if MEDIUM_PRIORITY_KEYWORDS.contains kwLower then ("medium", some kw)
      else ("low", some kw)
    else classifyAux textLower rest

/-- `_classify_priority(text, keywords)` from `linkedin_watcher.py`:
lowercase the text, scan the keyword list in order, first contained keyword
wins, and its tier-set membership decides the priority. -/
def _classify_priority (text : String) (keywords : List String) :
    String × Option String :=
  classifyAux (lowerStr text) keywords

/-- The tier the source assigns to a single matched keyword. -/
def keywordTier (kw : String) : String :=
  if HIGH_PRIORITY_KEYWORDS.contains (lowerStr kw) then "high"
  else if MEDIUM_PRIORITY_KEYWORDS.contains (lowerStr kw) then "medium"
  else "low"

/-- Specification-shaped form of the classifier: the first keyword of the
list contained in the text, paired with its tier. -/
def classifySpec (text : String) (keywords : List String) :
    String × Option String :=
  match keywords.find? (fun kw => strContainsSub (lowerStr text) (lowerStr kw)) with
  | none => ("low", none)
  | some kw => (keywordTier kw, some kw)

/-! ## Rate limiter (`backend/mcp_servers/rate_limiter.py`)

`time.time()` floats are modelled as rationals.  The window is the constant
`DEFAULT_WINDOW_SECONDS` (the source always sets `window_seconds` to it). -/

def DEFAULT_WINDOW_SECONDS : ℚ := 3600

/-- State of a `RateLimiter`: the deque of send timestamps (oldest first, as
`record_send` appends on the right) and the configured `max_sends`. -/
structure RateLimiter where
  send_timestamps : List ℚ
  max_sends : ℕ
deriving DecidableEq, Repr

/-- Python's `int()` truncation toward zero on a rational. -/
def pyInt (q : ℚ) : ℤ :=
  if 0 ≤ q then ⌊q⌋ else ⌈q⌉

/-- `RateLimiter._prune_expired`: pop from the left while the head is older
than `now - window`.  On a deque this is exactly `dropWhile`. -/
def _prune_expired (st : RateLimiter) (now : ℚ) : List ℚ :=
  st.send_timestamps.dropWhile (fun t => t < now - DEFAULT_WINDOW_SECONDS)

/-- `RateLimiter.check`: prune, then allow iff the remaining count is below
`max_sends`; otherwise report the wait until the oldest entry expires,
`int(oldest + window - now) + 1`, floored at `1`.  The result is `none` in
the one state where the Python code would raise `IndexError`
(`max_sends = 0` with an empty pruned deque reaching `_send_timestamps[0]`). -/
def RateLimiter.check (st : RateLimiter) (now : ℚ) : Option (Bool × ℤ) :=
  let ts := _prune_expired st now
  if ts.length < st.max_sends then some (true, 0)
  else
    match ts with
    | [] => none
    | oldest :: _ =>
      let seconds_remaining := pyInt (oldest + DEFAULT_WINDOW_SECONDS - now) + 1
      some (false, max seconds_remaining 1)

/-- `RateLimiter.record_send`: append the current timestamp. -/
def RateLimiter.record_send (st : RateLimiter) (now : ℚ) : RateLimiter :=
  { st with send_timestamps := st.send_timestamps ++ [now] }

/-! ## Retry/backoff engines

`GmailClient._execute_with_retry` (`backend/mcp_servers/gmail_client.py`) and
`GmailWatcher._fetch_messages_with_retry` (`backend/watchers/gmail_watcher.py`).

A unit of work is modelled as `f : ℕ → CallRes α` giving the outcome of the
`i`-th call of `fn` (the loop performs exactly one call per iteration, at
attempt index `i`).  Re-authentication (`self.service = None;
self.authenticate()`) and `time.sleep(delay)` are reified as trace events. -/

/-- Outcome of one call of the wrapped unit of work: a value, an `HttpError`
with a status code, or a transient `ConnectionError`/`TimeoutError`. -/
inductive CallRes (α : Type) where
  | ok (a : α)
  | httpErr (status : ℕ)
  | netErr
deriving DecidableEq, Repr

/-- Observable events of a retry loop run. -/
inductive REv where
  | call (attempt : ℕ)
  | reauth
  | backoff (delay : ℚ)
deriving DecidableEq, Repr

/-- Result of a whole retry-wrapped call: the returned value, a propagated
exception, or the fall-through return at the end of the function body
(`return None` in the client, `return []` in the watcher). -/
inductive ROut (α : Type) where
  | success (a : α)
  | raised (e : CallRes α)
  | fellThrough
deriving DecidableEq, Repr

def MAX_RETRIES : ℕ := 3

def INITIAL_BACKOFF : ℚ := 1

def RETRYABLE_STATUS_CODES : List ℕ := [429, 500, 503]

/-- Loop of `GmailClient._execute_with_retry`, with `remaining` iterations
left, current `attempt` index, `last_error`, and accumulated trace. -/
def clientRetryGo (f : ℕ → CallRes α) :
    ℕ → ℕ → Option (CallRes α) → List REv → List REv × ROut α
  | 0, _, lastErr, acc =>
    (acc, match lastErr with
          | some e => ROut.raised e
          | none => ROut.fellThrough)
  | r + 1, attempt, _, acc =>
    let acc := acc ++ [REv.call attempt]
    match f attempt with
    | CallRes.ok a => (acc, ROut.success a)
    | CallRes.httpErr s =>
      if s = 401 then
        clientRetryGo f r (attempt + 1) (some (CallRes.httpErr s))
          (acc ++ [REv.reauth])
      else if RETRYABLE_STATUS_CODES.contains s then
        clientRetryGo f r (attempt + 1) (some (CallRes.httpErr s))
          (acc ++ [REv.backoff (INITIAL_BACKOFF * 2 ^ attempt)])
      else
        (acc, ROut.raised (CallRes.httpErr s))
    | CallRes.netErr =>
      clientRetryGo f r (attempt + 1) (some CallRes.netErr)
        (acc ++ [REv.backoff (INITIAL_BACKOFF * 2 ^ attempt)])

/-- `GmailClient._execute_with_retry(fn)`:
`for attempt in range(MAX_RETRIES)`, call once per iteration; on 401
invalidate the service and re-authenticate, then continue; on 429/500/503
sleep `INITIAL_BACKOFF * 2**attempt` and continue; on any other HTTP status
re-raise immediately; on connection/timeout errors sleep the same backoff;
after the loop raise `last_error` (or fall through to `return None`). -/
def _execute_with_retry (f : ℕ → CallRes α) : List REv × ROut α :=
  clientRetryGo f MAX_RETRIES 0 none []

def MAX_BACKOFF_SECONDS : ℚ := 60

/-- Loop of `GmailWatcher._fetch_messages_with_retry`; `b` is the instance's
`_backoff_delay`. -/
def watcherRetryGo (f : ℕ → CallRes α) (b : ℚ) :
    ℕ → ℕ → Option (CallRes α) → List REv → List REv × ROut α
  | 0, _, lastErr, acc =>
    (acc, match lastErr with
          | some e => ROut.raised e
          | none => ROut.fellThrough)
  | r + 1, attempt, _, acc =>
    let acc := acc ++ [REv.call attempt]
    match f attempt with
    | CallRes.ok a => (acc, ROut.success a)
    | CallRes.httpErr s =>
      if s = 401 then
        watcherRetryGo f b r (attempt + 1) (some (CallRes.httpErr s))
          (acc ++ [REv.reauth])
      else if s = 429 then
        watcherRetryGo f b r (attempt + 1) (some (CallRes.httpErr s))
          (acc ++ [REv.backoff (min (b * 2 ^ attempt) MAX_BACKOFF_SECONDS)])
      else if s = 403 then
        (acc, ROut.raised (CallRes.httpErr s))
      else
        watcherRetryGo f b r (attempt + 1) (some (CallRes.httpErr s))
          (acc ++ [REv.backoff (b * 2 ^ attempt)])
    | CallRes.netErr =>
      watcherRetryGo f b r (attempt + 1) (some CallRes.netErr)
        (acc ++ [REv.backoff (b * 2 ^ attempt)])

/-- `GmailWatcher._fetch_messages_with_retry`: same loop shape, but 401 →
re-auth and continue; 429 → capped backoff and continue; 403 → raise
immediately; **every other** HTTP status → uncapped backoff and continue;
network errors → backoff and continue; exhaustion raises `last_error`
(falling through to `return []` when no error was recorded). -/
def _fetch_messages_with_retry (f : ℕ → CallRes α) (b : ℚ) :
    List REv × ROut α :=
  watcherRetryGo f b MAX_RETRIES 0 none []

/-- Number of calls of the wrapped unit of work recorded in a trace. -/
def countCalls (tr : List REv) : ℕ :=
  tr.countP (fun e => match e with | REv.call _ => true | _ => false)

/-- A call outcome the client wrapper treats as retryable-with-backoff. -/
def retryableRes : CallRes α → Bool
  | CallRes.httpErr s => RETRYABLE_STATUS_CODES.contains s
  | CallRes.netErr => true
  | CallRes.ok _ => false

/-! ## Watcher detection cycle, dedup ledger and dry-run

`GmailWatcher` / `LinkedInWatcher` (`backend/watchers/*.py`): the dedup
ledger (`self._processed_ids`, persisted as `processed_*.json`) is a map
fingerprint → timestamp; only key membership and insertion matter here, so
it is modelled as the list of recorded fingerprints.  File writes, ledger
inserts and audit-log entries are reified as ordered events. -/

/-- A detected candidate item, reduced to its dedup fingerprint
(gmail: the message id; linkedin: `_make_dedup_key(sender, text, ts)`) and
an opaque payload standing for all other extracted fields. -/
structure WItem where
  fingerprint : String
  payload : String
deriving DecidableEq, Repr

/-- Ordered observable events of item processing:
`writeFile` = `create_file_with_frontmatter(...)`,
`recordFingerprint` = `self._processed_ids[fp] = now_iso()` followed by
`self._save_processed_ids()`, `logResult r` = `log_action(...)` with
`"result": r`. -/
inductive WEv where
  | writeFile (it : WItem)
  | recordFingerprint (fp : String)
  | logResult (result : String)
deriving DecidableEq, Repr

/-- `create_action_file(item)` (same shape in `gmail_watcher.py` lines
411-465 and `linkedin_watcher.py` lines 817-905): in dry-run mode log a
`dry_run` entry and return `None` without touching the vault or the ledger;
otherwise write the action file, then record the fingerprint in the ledger,
then log `success`, and return the created file (modelled by the item). -/
def create_action_file (dryRun : Bool) (ledger : List String) (it : WItem) :
    List WEv × List String × Option WItem :=
  if dryRun then
    ([WEv.logResult "dry_run"], ledger, none)
  else
    ([WEv.writeFile it, WEv.recordFingerprint it.fingerprint,
      WEv.logResult "success"],
     ledger ++ [it.fingerprint], some it)

/-- The dedup filter applied while scanning (`if msg_id in
self._processed_ids: continue` in `_fetch_messages`, `if dedup_key in
self._processed_ids: continue` in `_scan_messages`): of the raw candidate
stream, keep the items whose fingerprint is not in the ledger. -/
def check_for_updates (ledger : List String) (raw : List WItem) : List WItem :=
  raw.filter (fun it => !ledger.contains it.fingerprint)

/-- One poll cycle (`BaseWatcher.run` body / `single_check`): scan with the
ledger loaded at cycle start, then `create_action_file` for each surviving
item in order, threading the ledger through. -/
def runCycle (dryRun : Bool) (ledger : List String) (raw : List WItem) :
    List WEv × List String :=
  (check_for_updates ledger raw).foldl
    (fun acc it =>
      let r := create_action_file dryRun acc.2 it
      (acc.1 ++ r.1, r.2.1))
    ([], ledger)

/-- Number of work-item files written for fingerprint `fp` in a trace. -/
def countWrites (tr : List WEv) (fp : String) : ℕ :=
  tr.countP (fun e => match e with
    | WEv.writeFile it => it.fingerprint == fp
    | _ => false)

/-! ## Approval matching and consumption (`backend/mcp_servers/approval.py`)

Approval files are modelled at the parsed level: YAML frontmatter is an
ordered key/value mapping (`yaml.safe_load` of the metadata block — an
external collaborator per the spec — yields a Python `dict`), values are
the scalar shapes the code distinguishes (`isinstance(..., str)`). -/

/-- A YAML scalar value as the approval code distinguishes them. -/
inductive Yaml where
  | str (s : String)
  | int (n : ℤ)
  | bool (b : Bool)
deriving DecidableEq, Repr

/-- Frontmatter: insertion-ordered mapping, as a Python `dict` is. -/
abbrev Frontmatter := List (String × Yaml)

/-- `frontmatter.get(k)`: first binding of `k` (keys are unique in a dict;
on an association list the first binding is the binding). -/
def fmGet (fm : Frontmatter) (k : String) : Option Yaml :=
  fm.lookup k

/-- `frontmatter.get(k, d)`. -/
def fmGetD (fm : Frontmatter) (k : String) (d : Yaml) : Yaml :=
  (fmGet fm k).getD d

/-- One approval file of the `Approved/` directory, already parsed.  The
list of files handed to `find_approval` is taken in the order the source
iterates them (`sorted(approved_dir.glob("*.md"))`). -/
structure ApprovalFile where
  name : String
  frontmatter : Frontmatter
deriving DecidableEq, Repr

/-- One match-field check of `find_approval`: case-insensitive equality when
both the actual and the expected value are strings, plain equality
otherwise; a missing field reads as `""` (`frontmatter.get(field, "")`). -/
def matchValue (actual expected : Yaml) : Bool :=
  match actual, expected with
  | Yaml.str a, Yaml.str e => lowerStr a == lowerStr e
  | a, e => a == e

/-- The `for field, expected in match_fields.items()` loop. -/
def fieldsMatch (fm : Frontmatter) (mfs : List (String × Yaml)) : Bool :=
  mfs.all (fun me => matchValue (fmGetD fm me.1 (Yaml.str "")) me.2)

/-- The per-file filter of `find_approval`: non-empty frontmatter, `type`
equal to the action type, `status` exactly `"approved"`, and every supplied
match field matching. -/
def isMatch (f : ApprovalFile) (action_type : String)
    (mfs : List (String × Yaml)) : Bool :=
  !f.frontmatter.isEmpty
    && (fmGet f.frontmatter "type" == some (Yaml.str action_type))
    && (fmGet f.frontmatter "status" == some (Yaml.str "approved"))
    && fieldsMatch f.frontmatter mfs

/-- `_sort_key`: `m.get("approved_at", m.get("created", ""))`. -/
def _sort_key (m : ApprovalFile) : Yaml :=
  fmGetD m.frontmatter "approved_at" (fmGetD m.frontmatter "created" (Yaml.str ""))

/-- The sort key as the string Python would compare.  (With a non-string
key Python's `sort` would raise `TypeError`; that corner is modelled as
`""` and never relied on: the theorems below only compare string keys.) -/
def sortKeyStr (m : ApprovalFile) : String :=
  match _sort_key m with
  | Yaml.str s => s
  | _ => ""

/-- Python's `<` on strings: lexicographic by code point. -/
def pyStrLtChars : List Char → List Char → Bool
  | [], [] => false
  | [], _ :: _ => true
  | _ :: _, [] => false
  | a :: as, b :: bs => a < b || (a == b && pyStrLtChars as bs)

def pyStrLt (a b : String) : Bool :=
  pyStrLtChars a.toList b.toList

/-- Left fold selecting the first element with the maximal key. -/
def foldBest {α : Type} (key : α → String) (best : α) (rest : List α) : α :=
  rest.foldl (fun b y => if pyStrLt (key b) (key y) then y else b) best

/-- `matches.sort(key=_sort_key, reverse=True); return matches[0]`:
a stable descending sort followed by taking the head returns the first
element attaining the maximal key, which is what `foldBest` computes. -/
def selectLatest : List ApprovalFile → Option ApprovalFile
  | [] => none
  | m :: rest => some (foldBest sortKeyStr m rest)

/-- `find_approval(vault_path, action_type, **match_fields)` over the parsed
files of `Approved/` (in sorted-filename order): filter by `isMatch`, then
return the most recent match by `_sort_key`, or `None` if none match. -/
def find_approval (files : List ApprovalFile) (action_type : String)
    (mfs : List (String × Yaml)) : Option ApprovalFile :=
  selectLatest (files.filter (fun f => isMatch f action_type mfs))

/-! ## Approval consumption (`consume_approval`) -/

/-- A vault file at the parsed level: frontmatter plus free-text body. -/
structure FileData where
  frontmatter : Frontmatter
  body : String
deriving DecidableEq, Repr

/-- Python `dict`/mapping assignment `d[k] = v`: replace the value of an
existing key in place (insertion order kept), else append a new binding. -/
def assocSet {β : Type} (l : List (String × β)) (k : String) (v : β) :
    List (String × β) :=
  if (l.lookup k).isSome then
    l.map (fun kv => if kv.1 == k then (kv.1, v) else kv)
  else l ++ [(k, v)]

/-- `dict` assignment on a frontmatter mapping. -/
def dictSet (fm : Frontmatter) (k : String) (v : Yaml) : Frontmatter :=
  assocSet fm k v

/-- Python `dict.update(updates)`. -/
def dictUpdate (fm : Frontmatter) (updates : List (String × Yaml)) : Frontmatter :=
  updates.foldl (fun acc kv => dictSet acc kv.1 kv.2) fm

/-- `update_frontmatter(path, updates)` (`backend/utils/frontmatter.py`),
at the parsed level: extract, merge the updates into the frontmatter, and
rewrite the file with the same body. -/
def update_frontmatter (fd : FileData) (updates : List (String × Yaml)) :
    FileData :=
  { fd with frontmatter := dictUpdate fd.frontmatter updates }

/-- A named directory of the vault: filename → file. -/
abbrev VaultDir := List (String × FileData)

def dirSet (d : VaultDir) (name : String) (fd : FileData) : VaultDir :=
  assocSet d name fd

def dirErase (d : VaultDir) (name : String) : VaultDir :=
  d.filter (fun kv => kv.1 != name)

/-- Filesystem operations of `consume_approval`, in program order. -/
inductive FsOp where
  | stampMetadata (name : String)
  | move (name : String)
deriving DecidableEq, Repr

/-- `consume_approval(file_path, vault_path)`: update the file's frontmatter
with `status: done` and `completed_at: now_iso()` **in place**, then
`shutil.move` it from `Approved/` into `Done/` under the same filename
(overwriting any file of that name there).  `none` models the
`FileNotFoundError` that `shutil.move` raises when the source is missing. -/
def consume_approval (approved done : VaultDir) (name : String) (now : String) :
    Option (VaultDir × VaultDir × List FsOp) :=
  match approved.lookup name with
  | none => none
  | some fd =>
    let fd' := update_frontmatter fd
      [("status", Yaml.str "done"), ("completed_at", Yaml.str now)]
    let approvedStamped := dirSet approved name fd'
    some (dirErase approvedStamped name, dirSet done name fd',
          [FsOp.stampMetadata name, FsOp.move name])

/-! ## Frontmatter wire format (`backend/utils/frontmatter.py`)

String-level model of `extract_frontmatter` / `format_with_frontmatter`.

`FRONTMATTER_PATTERN = re.compile(r"^---\s*\n(.*?)\n---\s*\n?", re.DOTALL)`
is implemented by hand: after the literal `---`, the greedy `\s*` followed
by `\n` splits at a newline of the leading whitespace run (latest first,
with backtracking); the lazy group ends at the first later occurrence of
`"\n---"`; the trailing `\s*\n?` consumes the maximal whitespace run.

The YAML library is an external collaborator (excluded by the spec), so
`yaml.dump` / `yaml.safe_load` are modelled on the fragment the round-trip
claim is about: flat mappings whose keys and values are plain words that
YAML neither quotes nor coerces; anything else is modelled as a parse
failure. -/

/-- Python's `\s` on ASCII. -/
def isWSChar (c : Char) : Bool :=
  c == ' ' || c == '\t' || c == '\n' || c == '\r' ||
  c == '\x0b' || c == '\x0c'

/-- Index of the last `'\n'` in a char list, if any. -/
def lastIdxNl : List Char → Option ℕ
  | [] => none
  | c :: t =>
    match lastIdxNl t with
    | some j => some (j + 1)
    | none => if c == '\n' then some 0 else none

/-- Descending list of indices of `'\n'` in `w` (the backtracking order of
the greedy `\s*` before the mandatory `\n`). -/
def nlIdxsDesc : List Char → List ℕ
  | [] => []
  | c :: t =>
    let rest := (nlIdxsDesc t).map (· + 1)
    if c == '\n' then rest ++ [0] else rest

/-- Split at the first occurrence of the substring `"\n---"`: returns the
part before it and the part after it (the lazy group search of the regex). -/
def splitOnNlDashes : List Char → Option (List Char × List Char)
  | [] => none
  | c :: t =>
    if c == '\n' && ['-', '-', '-'].isPrefixOf t then some ([], t.drop 3)
    else (splitOnNlDashes t).map (fun p => (c :: p.1, p.2))

/-- Try each candidate newline split of the opening `\s*\n` (greedy, so
latest newline first), looking for a closing `"\n---"` after it. -/
def tryCloseFrom (rest : List Char) : List ℕ → Option (List Char × List Char)
  | [] => none
  | j :: js =>
    match splitOnNlDashes (rest.drop (j + 1)) with
    | some p => some p
    | none => tryCloseFrom rest js

/-- `FRONTMATTER_PATTERN.match(content)`: on success, the raw YAML group and
the body (`content[match.end():]`, i.e. everything after the closing `---`
and its trailing whitespace run). -/
def matchFMPattern (cs : List Char) : Option (List Char × List Char) :=
  match cs with
  | '-' :: '-' :: '-' :: rest =>
    (tryCloseFrom rest (nlIdxsDesc (rest.takeWhile isWSChar))).map
      (fun p => (p.1, p.2.dropWhile isWSChar))
  | _ => none

/-- Split at the first occurrence of `": "` in a line. -/
def splitColonSpace : List Char → Option (List Char × List Char)
  | [] => none
  | c :: t =>
    if c == ':' && t.head? == some ' ' then some ([], t.drop 1)
    else (splitColonSpace t).map (fun p => (c :: p.1, p.2))

/-- Parse one `key: value` line of the plain-mapping YAML fragment. -/
def parseYamlLine (line : List Char) : Option (List Char × List Char) :=
  match splitColonSpace line with
  | some (k, v) => if k.isEmpty then none else some (k, v)
  | none => none

/-- Model of `yaml.safe_load` on the raw group: an empty group is the empty
mapping (`safe_load("") is None`, and the source replaces `None` with `{}`);
otherwise every newline-separated line must be a `key: value` pair. -/
def yamlLoadChars (g : List Char) : Option (List (List Char × List Char)) :=
  if g.isEmpty then some []
  else (g.splitOn '\n').mapM parseYamlLine

/-- `extract_frontmatter(content)`: match the frontmatter pattern; on no
match or a YAML error return `({}, content)`; otherwise the parsed mapping
and the body after the block. -/
def extract_frontmatter (content : String) :
    List (String × String) × String :=
  match matchFMPattern content.toList with
  | none => ([], content)
  | some (g, bodyChars) =>
    match yamlLoadChars g with
    | none => ([], content)
    | some pairs =>
      (pairs.map (fun kv => (String.mk kv.1, String.mk kv.2)),
       String.mk bodyChars)

/-- Model of `yaml.dump(fm, default_flow_style=False, sort_keys=False)` on
the plain-word fragment: one `key: value` line per binding, in insertion
order, each terminated by a newline. -/
def yamlDumpChars (fm : List (List Char × List Char)) : List Char :=
  (fm.map (fun kv => kv.1 ++ ':' :: ' ' :: kv.2 ++ ['\n'])).flatten

/-- Char-level body of `format_with_frontmatter` for non-empty frontmatter:
prefix the body with a newline unless it is empty or already starts with
one, and glue `---\n`, the YAML dump, `---` and the body together. -/
def formatFMChars (fm : List (List Char × List Char)) (body : List Char) :
    List Char :=
  let body' :=
    match body with
    | [] => []
    | c :: _ => if c == '\n' then body else '\n' :: body
  '-' :: '-' :: '-' :: '\n' :: (yamlDumpChars fm ++ '-' :: '-' :: '-' :: body')

/-- `format_with_frontmatter(frontmatter, body)`: the body unchanged when
the mapping is empty, else the assembled `---` block followed by the body. -/
def format_with_frontmatter (fm : List (String × String)) (body : String) :
    String :=
  if fm.isEmpty then body
  else String.mk
    (formatFMChars (fm.map (fun kv => (kv.1.toList, kv.2.toList))) body.toList)

/-- A plain YAML word as the round-trip claim demands: non-empty,
alphanumeric only (hence no newlines and no `-`/`:`), and not one of the
scalars YAML would re-type (pure digit strings, boolean and null words —
which `yaml.dump` would quote and `yaml.safe_load` would coerce). -/
def isPlainWord (s : String) : Bool :=
  !s.toList.isEmpty && s.toList.all Char.isAlphanum
    && !(s.toList.all Char.isDigit)
    && !(["true", "false", "yes", "no", "on", "off", "null", "none"].contains
          (lowerStr s))

/-! ## Theorems -/

/-! ### Priority classification (C7, C8) -/

theorem classifyAux_eq_find? (tl : String) (ks : List String) :
    classifyAux tl ks =
      match ks.find? (fun kw => strContainsSub tl (lowerStr kw)) with
      | none => ("low", none)
      | some kw => (keywordTier kw, some kw) := by
  induction ks with
  | nil => rfl
  | cons kw rest ih =>
    by_cases h : strContainsSub tl (lowerStr kw) = true
    · have hfd : List.find? (fun k => strContainsSub tl (lowerStr k)) (kw :: rest)
          = some kw := List.find?_cons_of_pos rest h
      simp only [classifyAux, if_pos h, hfd, keywordTier]
      by_cases h1 : HIGH_PRIORITY_KEYWORDS.contains (lowerStr kw) = true
      · rw [if_pos h1, if_pos h1]
      · rw [if_neg h1, if_neg h1]
        by_cases h2 : MEDIUM_PRIORITY_KEYWORDS.contains (lowerStr kw) = true
        · rw [if_pos h2, if_pos h2]
        · rw [if_neg h2, if_neg h2]
    · have hfd : List.find? (fun k => strContainsSub tl (lowerStr k)) (kw :: rest)
          = List.find? (fun k => strContainsSub tl (lowerStr k)) rest :=
        List.find?_cons_of_neg rest h
      simp only [classifyAux, if_neg h, hfd, ih]

theorem find?_congr_local {α : Type} (p q : α → Bool) :
    ∀ l : List α, (∀ a ∈ l, p a = q a) → l.find? p = l.find? q := by
  intro l
  induction l with
  | nil => intro _; rfl
  | cons x xs ih =>
    intro h
    have hx : p x = q x := h x (List.mem_cons_self x xs)
    by_cases hq : q x = true
    · rw [List.find?_cons_of_pos xs (by rw [hx]; exact hq),
        List.find?_cons_of_pos xs hq]
    · rw [List.find?_cons_of_neg xs (by rw [hx]; exact hq),
        List.find?_cons_of_neg xs hq]
      exact ih fun a ha => h a (List.mem_cons_of_mem _ ha)

/-- C8: `_classify_priority` scans the keyword list in order; the first
keyword contained in the (lowercased) text wins and its tier-set membership
decides the priority (`high` / `medium` / `low`, with `low` also for a
match outside both tiers or no match at all); on the spec's example text
`"URGENT: please send the invoice"` with keyword list
`["urgent", "invoice"]` (both members of the high tier) the result is
`("high", "urgent")`. -/
theorem C8_first_keyword_in_list_order_decides :
    (∀ (text : String) (keywords : List String),
       _classify_priority text keywords = classifySpec text keywords) ∧
    HIGH_PRIORITY_KEYWORDS.contains "urgent" = true ∧
    HIGH_PRIORITY_KEYWORDS.contains "invoice" = true ∧
    _classify_priority "URGENT: please send the invoice" ["urgent", "invoice"]
      = ("high", some "urgent") := by
  refine ⟨fun text keywords => ?_, by decide, by decide, by decide⟩
  rw [_classify_priority, classifySpec, classifyAux_eq_find?]

/-- C7 counterexample: the text `"Urgent opportunity"` contains the
high-tier keyword `"urgent"` and the medium-tier keyword `"opportunity"`,
both from the configured default keyword list, yet classification returns
`("medium", "opportunity")` — not `"high"` — because `"opportunity"`
precedes `"urgent"` in `DEFAULT_KEYWORDS`. -/
theorem C7_counterexample :
    strContainsSub (lowerStr "Urgent opportunity") (lowerStr "urgent") = true ∧
    HIGH_PRIORITY_KEYWORDS.contains (lowerStr "urgent") = true ∧
    "urgent" ∈ DEFAULT_KEYWORDS ∧
    strContainsSub (lowerStr "Urgent opportunity") (lowerStr "opportunity") = true ∧
    MEDIUM_PRIORITY_KEYWORDS.contains (lowerStr "opportunity") = true ∧
    "opportunity" ∈ DEFAULT_KEYWORDS ∧
    _classify_priority "Urgent opportunity" DEFAULT_KEYWORDS
      = ("medium", some "opportunity") := by
  decide

/-- C7 (amended): classification depends only on which configured keywords
the text contains — never on where they occur in the raw text — and it
returns the tier of the **first matching keyword in keyword-list order**;
in particular the result is `"high"` (with that keyword) exactly when the
first matching keyword belongs to the high-priority set. -/
theorem C7_keyword_list_order_decides :
    (∀ (keywords : List String) (t₁ t₂ : String),
       (∀ kw ∈ keywords,
          strContainsSub (lowerStr t₁) (lowerStr kw)
            = strContainsSub (lowerStr t₂) (lowerStr kw)) →
       _classify_priority t₁ keywords = _classify_priority t₂ keywords) ∧
    (∀ (keywords : List String) (text kw : String),
       keywords.find? (fun k => strContainsSub (lowerStr text) (lowerStr k))
         = some kw →
       HIGH_PRIORITY_KEYWORDS.contains (lowerStr kw) = true →
       _classify_priority text keywords = ("high", some kw)) := by
  constructor
  · intro keywords t₁ t₂ h
    rw [_classify_priority, _classify_priority, classifyAux_eq_find?,
      classifyAux_eq_find?, find?_congr_local _ _ keywords h]
  · intro keywords text kw hfind hhigh
    rw [_classify_priority, classifyAux_eq_find?, hfind]
    show (keywordTier kw, some kw) = ("high", some kw)
    rw [keywordTier, if_pos hhigh]

/-- Witness for the amended C7 at concrete inputs: two texts containing the
same default keywords (in opposite text order) classify identically, and a
text whose first matching keyword (`"invoice"`) is high-tier classifies as
`("high", "invoice")`. -/
theorem C7_keyword_list_order_decides_witness :
    _classify_priority "send invoice urgent" DEFAULT_KEYWORDS
      = _classify_priority "urgent invoice send" DEFAULT_KEYWORDS ∧
    _classify_priority "please send the invoice" ["invoice", "project"]
      = ("high", some "invoice") :=
  ⟨C7_keyword_list_order_decides.1 DEFAULT_KEYWORDS _ _ (by decide),
   C7_keyword_list_order_decides.2 ["invoice", "project"] _ _ (by decide) (by decide)⟩

/-! ### Detection cycle, dedup ledger, dry run (C2, C9) -/

theorem cycle_foldl_real (items : List WItem) :
    ∀ (evs : List WEv) (led : List String),
      items.foldl
        (fun acc it =>
          let r := create_action_file false acc.2 it
          (acc.1 ++ r.1, r.2.1)) (evs, led)
      = (evs ++ items.flatMap (fun it =>
            [WEv.writeFile it, WEv.recordFingerprint it.fingerprint,
             WEv.logResult "success"]),
         led ++ items.map (·.fingerprint)) := by
  induction items with
  | nil => intro evs led; simp
  | cons it rest ih =>
    intro evs led
    rw [List.foldl_cons]
    change List.foldl _
      (evs ++ [WEv.writeFile it, WEv.recordFingerprint it.fingerprint,
        WEv.logResult "success"], led ++ [it.fingerprint]) rest = _
    rw [ih]
    simp [List.append_assoc]

theorem cycle_foldl_dry (items : List WItem) :
    ∀ (evs : List WEv) (led : List String),
      items.foldl
        (fun acc it =>
          let r := create_action_file true acc.2 it
          (acc.1 ++ r.1, r.2.1)) (evs, led)
      = (evs ++ items.map (fun _ => WEv.logResult "dry_run"), led) := by
  induction items with
  | nil => intro evs led; simp
  | cons it rest ih =>
    intro evs led
    rw [List.foldl_cons]
    change List.foldl _ (evs ++ [WEv.logResult "dry_run"], led) rest = _
    rw [ih]
    simp [List.append_assoc]

theorem countWrites_tripEvents (fp : String) (items : List WItem) :
    countWrites
      (items.flatMap (fun it =>
        [WEv.writeFile it, WEv.recordFingerprint it.fingerprint,
         WEv.logResult "success"])) fp
    = items.countP (fun it => it.fingerprint == fp) := by
  induction items with
  | nil => rfl
  | cons it rest ih =>
    simp only [countWrites] at ih ⊢
    rw [List.flatMap_cons, List.countP_append, ih, List.countP_cons,
      List.countP_cons, List.countP_cons, List.countP_nil]
    by_cases h : it.fingerprint == fp
    · simp [h]
      omega
    · simp [h]

theorem countWrites_cycle_already_recorded (led : List String) (fp : String)
    (h : led.contains fp = true) (raw : List WItem) :
    countWrites (runCycle false led raw).1 fp = 0 := by
  rw [runCycle, cycle_foldl_real]
  simp only [List.nil_append, countWrites]
  rw [← countWrites, countWrites_tripEvents, check_for_updates,
    List.countP_filter, List.countP_eq_zero]
  intro it _
  simp only [Bool.and_eq_true, beq_iff_eq, Bool.not_eq_true', not_and]
  intro hfp
  rw [hfp]
  intro hc
  rw [h] at hc
  exact Bool.noConfusion hc

theorem countWrites_cycle_fresh (led : List String) (fp : String)
    (h : led.contains fp = false) (raw : List WItem) :
    countWrites (runCycle false led raw).1 fp
      = raw.countP (fun it => it.fingerprint == fp) := by
  rw [runCycle, cycle_foldl_real]
  simp only [List.nil_append, countWrites]
  rw [← countWrites, countWrites_tripEvents, check_for_updates,
    List.countP_filter]
  refine List.countP_congr fun it _ => ?_
  constructor
  · intro hx
    simp only [Bool.and_eq_true] at hx
    exact hx.1
  · intro hx
    simp only [Bool.and_eq_true]
    refine ⟨hx, ?_⟩
    have : it.fingerprint = fp := by simpa using hx
    rw [this, h]
    rfl

theorem countP_check_fresh (led : List String) (fp : String)
    (h : led.contains fp = false) (raw : List WItem) :
    (check_for_updates led raw).countP (fun it => it.fingerprint == fp)
      = raw.countP (fun it => it.fingerprint == fp) := by
  rw [check_for_updates, List.countP_filter]
  refine List.countP_congr fun it _ => ?_
  constructor
  · intro hx
    simp only [Bool.and_eq_true] at hx
    exact hx.1
  · intro hx
    simp only [Bool.and_eq_true]
    refine ⟨hx, ?_⟩
    have : it.fingerprint = fp := by simpa using hx
    rw [this, h]
    rfl

theorem ledger_after_cycle (led : List String) (raw : List WItem) :
    (runCycle false led raw).2
      = led ++ (check_for_updates led raw).map (·.fingerprint) := by
  rw [runCycle, cycle_foldl_real]

/-- C2: (a) a real (non-dry) `create_action_file` emits the durable file
write strictly **before** the dedup-ledger insert (the event list shows the
order), and the ledger gains the fingerprint in that same call; (b) a
fingerprint already present in the ledger at cycle start is skipped — the
cycle writes no work item for it; (c) hence running detection twice over
the same ledger, where the first raw stream carries the item's fingerprint
exactly once, writes the item exactly once in the first run and zero times
in the second: exactly once across both runs combined. -/
theorem C2_idempotent_detection :
    (∀ (ledger : List String) (it : WItem),
       (create_action_file false ledger it).1
         = [WEv.writeFile it, WEv.recordFingerprint it.fingerprint,
            WEv.logResult "success"] ∧
       (create_action_file false ledger it).2.1 = ledger ++ [it.fingerprint]) ∧
    (∀ (ledger : List String) (raw : List WItem) (fp : String),
       ledger.contains fp = true →
       countWrites (runCycle false ledger raw).1 fp = 0) ∧
    (∀ (led₀ : List String) (raw₁ raw₂ : List WItem) (fp : String),
       led₀.contains fp = false →
       raw₁.countP (fun it => it.fingerprint == fp) = 1 →
       countWrites (runCycle false led₀ raw₁).1 fp = 1 ∧
       countWrites (runCycle false (runCycle false led₀ raw₁).2 raw₂).1 fp = 0) := by
  refine ⟨fun ledger it => ⟨rfl, rfl⟩,
    fun ledger raw fp h => countWrites_cycle_already_recorded ledger fp h raw,
    fun led₀ raw₁ raw₂ fp h hcount => ⟨?_, ?_⟩⟩
  · rw [countWrites_cycle_fresh led₀ fp h raw₁, hcount]
  · refine countWrites_cycle_already_recorded _ fp ?_ raw₂
    rw [ledger_after_cycle]
    have hpos : 0 < (check_for_updates led₀ raw₁).countP
        (fun it => it.fingerprint == fp) := by
      rw [countP_check_fresh led₀ fp h raw₁, hcount]
      norm_num
    obtain ⟨a, ha, hfa⟩ := List.countP_pos_iff.mp hpos
    refine List.elem_iff.mpr (List.mem_append_right _ ?_)
    exact List.mem_map.mpr ⟨a, ha, by simpa using hfa⟩

/-- Witness for C2 at a concrete item: with an empty ledger, running
detection twice on the same single-item stream writes the item exactly once
in the first cycle and not at all in the second. -/
theorem C2_idempotent_detection_witness :
    countWrites (runCycle false [] [⟨"fp1", "a"⟩]).1 "fp1" = 1 ∧
    countWrites (runCycle false (runCycle false [] [⟨"fp1", "a"⟩]).2
      [⟨"fp1", "a"⟩]).1 "fp1" = 0 :=
  C2_idempotent_detection.2.2 [] [⟨"fp1", "a"⟩] [⟨"fp1", "a"⟩] "fp1"
    (by decide) (by decide)

/-- C9: in dry-run mode `create_action_file` produces exactly one audit-log
event with result `dry_run`, writes no work-item file, records no dedup
entry, and returns `None`; a whole dry cycle leaves the ledger unchanged
and writes no files; and the same item is still eligible on a later real
run: a non-dry cycle over the unchanged ledger writes it (exactly once). -/
theorem C9_dry_run_non_destructive :
    (∀ (ledger : List String) (it : WItem),
       create_action_file true ledger it
         = ([WEv.logResult "dry_run"], ledger, none)) ∧
    (∀ (ledger : List String) (raw : List WItem),
       (runCycle true ledger raw).2 = ledger ∧
       ∀ fp, countWrites (runCycle true ledger raw).1 fp = 0) ∧
    (∀ (ledger : List String) (it : WItem),
       ledger.contains it.fingerprint = false →
       countWrites (runCycle false ledger [it]).1 it.fingerprint = 1) := by
  refine ⟨fun ledger it => rfl, fun ledger raw => ⟨?_, fun fp => ?_⟩,
    fun ledger it h => ?_⟩
  · rw [runCycle, cycle_foldl_dry]
  · rw [runCycle, cycle_foldl_dry]
    simp only [List.nil_append, countWrites, List.countP_eq_zero]
    intro e he
    obtain ⟨_, _, rfl⟩ := List.mem_map.mp he
    simp
  · rw [countWrites_cycle_fresh ledger it.fingerprint h [it]]
    simp [List.countP_cons]

/-- Witness for C9 at a concrete item: a dry cycle leaves the ledger empty
and a subsequent real cycle writes the item. -/
theorem C9_dry_run_non_destructive_witness :
    (runCycle true [] [⟨"m1", "p"⟩]).2 = [] ∧
    countWrites (runCycle false [] [⟨"m1", "p"⟩]).1 "m1" = 1 :=
  ⟨(C9_dry_run_non_destructive.2.1 [] [⟨"m1", "p"⟩]).1,
   C9_dry_run_non_destructive.2.2 [] ⟨"m1", "p"⟩ (by decide)⟩

/-! ### Retry/backoff engines (C4, C5) -/

theorem clientRetryGo_step_ok {α : Type} (f : ℕ → CallRes α) (r attempt : ℕ)
    (le : Option (CallRes α)) (acc : List REv) (a : α)
    (hf : f attempt = CallRes.ok a) :
    clientRetryGo f (r + 1) attempt le acc
      = (acc ++ [REv.call attempt], ROut.success a) := by
  simp [clientRetryGo, hf]

theorem clientRetryGo_step_401 {α : Type} (f : ℕ → CallRes α) (r attempt : ℕ)
    (le : Option (CallRes α)) (acc : List REv)
    (hf : f attempt = CallRes.httpErr 401) :
    clientRetryGo f (r + 1) attempt le acc
      = clientRetryGo f r (attempt + 1) (some (CallRes.httpErr 401))
          (acc ++ [REv.call attempt, REv.reauth]) := by
  simp [clientRetryGo, hf]

theorem clientRetryGo_step_retryable {α : Type} (f : ℕ → CallRes α)
    (r attempt : ℕ) (le : Option (CallRes α)) (acc : List REv) (s : ℕ)
    (hs : RETRYABLE_STATUS_CODES.contains s = true)
    (hf : f attempt = CallRes.httpErr s) :
    clientRetryGo f (r + 1) attempt le acc
      = clientRetryGo f r (attempt + 1) (some (CallRes.httpErr s))
          (acc ++ [REv.call attempt,
            REv.backoff (INITIAL_BACKOFF * 2 ^ attempt)]) := by
  have hcase : s = 429 ∨ s = 500 ∨ s = 503 := by
    simpa [RETRYABLE_STATUS_CODES] using hs
  rcases hcase with rfl | rfl | rfl <;>
    simp [clientRetryGo, hf, RETRYABLE_STATUS_CODES]

theorem clientRetryGo_step_net {α : Type} (f : ℕ → CallRes α) (r attempt : ℕ)
    (le : Option (CallRes α)) (acc : List REv)
    (hf : f attempt = CallRes.netErr) :
    clientRetryGo f (r + 1) attempt le acc
      = clientRetryGo f r (attempt + 1) (some CallRes.netErr)
          (acc ++ [REv.call attempt,
            REv.backoff (INITIAL_BACKOFF * 2 ^ attempt)]) := by
  simp [clientRetryGo, hf]

theorem clientRetryGo_step_fatal {α : Type} (f : ℕ → CallRes α) (r attempt : ℕ)
    (le : Option (CallRes α)) (acc : List REv) (s : ℕ)
    (h401 : s ≠ 401) (hs : RETRYABLE_STATUS_CODES.contains s = false)
    (hf : f attempt = CallRes.httpErr s) :
    clientRetryGo f (r + 1) attempt le acc
      = (acc ++ [REv.call attempt], ROut.raised (CallRes.httpErr s)) := by
  have hs' : ¬ (RETRYABLE_STATUS_CODES.contains s = true) := by
    rw [hs]; exact Bool.false_ne_true
  have hmem : s ∉ RETRYABLE_STATUS_CODES := fun hm => hs' (List.elem_iff.mpr hm)
  simp [clientRetryGo, hf, h401, hmem]

theorem clientRetryGo_step_retryableRes {α : Type} (f : ℕ → CallRes α)
    (r attempt : ℕ) (le : Option (CallRes α)) (acc : List REv)
    (h : retryableRes (f attempt) = true) :
    clientRetryGo f (r + 1) attempt le acc
      = clientRetryGo f r (attempt + 1) (some (f attempt))
          (acc ++ [REv.call attempt,
            REv.backoff (INITIAL_BACKOFF * 2 ^ attempt)]) := by
  rcases hf : f attempt with a | s | _
  · rw [hf] at h; simp [retryableRes] at h
  · rw [hf] at h
    exact clientRetryGo_step_retryable f r attempt le acc s h hf
  · exact clientRetryGo_step_net f r attempt le acc hf

theorem watcherRetryGo_step_ok {α : Type} (f : ℕ → CallRes α) (b : ℚ)
    (r attempt : ℕ) (le : Option (CallRes α)) (acc : List REv) (a : α)
    (hf : f attempt = CallRes.ok a) :
    watcherRetryGo f b (r + 1) attempt le acc
      = (acc ++ [REv.call attempt], ROut.success a) := by
  simp [watcherRetryGo, hf]

theorem watcherRetryGo_step_401 {α : Type} (f : ℕ → CallRes α) (b : ℚ)
    (r attempt : ℕ) (le : Option (CallRes α)) (acc : List REv)
    (hf : f attempt = CallRes.httpErr 401) :
    watcherRetryGo f b (r + 1) attempt le acc
      = watcherRetryGo f b r (attempt + 1) (some (CallRes.httpErr 401))
          (acc ++ [REv.call attempt, REv.reauth]) := by
  simp [watcherRetryGo, hf]

theorem watcherRetryGo_step_403 {α : Type} (f : ℕ → CallRes α) (b : ℚ)
    (r attempt : ℕ) (le : Option (CallRes α)) (acc : List REv)
    (hf : f attempt = CallRes.httpErr 403) :
    watcherRetryGo f b (r + 1) attempt le acc
      = (acc ++ [REv.call attempt], ROut.raised (CallRes.httpErr 403)) := by
  simp [watcherRetryGo, hf]

theorem watcherRetryGo_step_other {α : Type} (f : ℕ → CallRes α) (b : ℚ)
    (r attempt : ℕ) (le : Option (CallRes α)) (acc : List REv) (s : ℕ)
    (h1 : s ≠ 401) (h2 : s ≠ 429) (h3 : s ≠ 403)
    (hf : f attempt = CallRes.httpErr s) :
    watcherRetryGo f b (r + 1) attempt le acc
      = watcherRetryGo f b r (attempt + 1) (some (CallRes.httpErr s))
          (acc ++ [REv.call attempt, REv.backoff (b * 2 ^ attempt)]) := by
  simp [watcherRetryGo, hf, h1, h2, h3]

theorem clientRetryGo_trace_prefix {α : Type} (f : ℕ → CallRes α) :
    ∀ (r attempt : ℕ) (le : Option (CallRes α)) (acc : List REv),
      ∃ t out, clientRetryGo f r attempt le acc = (acc ++ t, out) := by
  intro r
  induction r with
  | zero =>
    intro attempt le acc
    cases le with
    | none => exact ⟨[], ROut.fellThrough, by simp [clientRetryGo]⟩
    | some e => exact ⟨[], ROut.raised e, by simp [clientRetryGo]⟩
  | succ r ih =>
    intro attempt le acc
    rcases hf : f attempt with a | s | _
    · exact ⟨[REv.call attempt], ROut.success a,
        clientRetryGo_step_ok f r attempt le acc a hf⟩
    · by_cases h401 : s = 401
      · subst h401
        obtain ⟨t, out, ht⟩ := ih (attempt + 1) (some (CallRes.httpErr 401))
          (acc ++ [REv.call attempt, REv.reauth])
        exact ⟨[REv.call attempt, REv.reauth] ++ t, out, by
          rw [clientRetryGo_step_401 f r attempt le acc hf, ht,
            List.append_assoc]⟩
      · by_cases hs : RETRYABLE_STATUS_CODES.contains s = true
        · obtain ⟨t, out, ht⟩ := ih (attempt + 1) (some (CallRes.httpErr s))
            (acc ++ [REv.call attempt,
              REv.backoff (INITIAL_BACKOFF * 2 ^ attempt)])
          exact ⟨[REv.call attempt,
              REv.backoff (INITIAL_BACKOFF * 2 ^ attempt)] ++ t, out, by
            rw [clientRetryGo_step_retryable f r attempt le acc s hs hf, ht,
              List.append_assoc]⟩
        · exact ⟨[REv.call attempt], ROut.raised (CallRes.httpErr s),
            clientRetryGo_step_fatal f r attempt le acc s h401
              (by simpa using hs) hf⟩
    · obtain ⟨t, out, ht⟩ := ih (attempt + 1) (some CallRes.netErr)
        (acc ++ [REv.call attempt, REv.backoff (INITIAL_BACKOFF * 2 ^ attempt)])
      exact ⟨[REv.call attempt,
          REv.backoff (INITIAL_BACKOFF * 2 ^ attempt)] ++ t, out, by
        rw [clientRetryGo_step_net f r attempt le acc hf, ht,
          List.append_assoc]⟩

theorem watcherRetryGo_trace_prefix {α : Type} (f : ℕ → CallRes α) (b : ℚ) :
    ∀ (r attempt : ℕ) (le : Option (CallRes α)) (acc : List REv),
      ∃ t out, watcherRetryGo f b r attempt le acc = (acc ++ t, out) := by
  intro r
  induction r with
  | zero =>
    intro attempt le acc
    cases le with
    | none => exact ⟨[], ROut.fellThrough, by simp [watcherRetryGo]⟩
    | some e => exact ⟨[], ROut.raised e, by simp [watcherRetryGo]⟩
  | succ r ih =>
    intro attempt le acc
    rcases hf : f attempt with a | s | _
    · exact ⟨[REv.call attempt], ROut.success a,
        watcherRetryGo_step_ok f b r attempt le acc a hf⟩
    · by_cases h1 : s = 401
      · subst h1
        obtain ⟨t, out, ht⟩ := ih (attempt + 1) (some (CallRes.httpErr 401))
          (acc ++ [REv.call attempt, REv.reauth])
        exact ⟨[REv.call attempt, REv.reauth] ++ t, out, by
          rw [watcherRetryGo_step_401 f b r attempt le acc hf, ht,
            List.append_assoc]⟩
      · by_cases h2 : s = 429
        · subst h2
          obtain ⟨t, out, ht⟩ := ih (attempt + 1) (some (CallRes.httpErr 429))
            (acc ++ [REv.call attempt,
              REv.backoff (min (b * 2 ^ attempt) MAX_BACKOFF_SECONDS)])
          exact ⟨[REv.call attempt,
              REv.backoff (min (b * 2 ^ attempt) MAX_BACKOFF_SECONDS)] ++ t,
            out, by
            rw [show watcherRetryGo f b (r + 1) attempt le acc
                = watcherRetryGo f b r (attempt + 1)
                    (some (CallRes.httpErr 429))
                    (acc ++ [REv.call attempt,
                      REv.backoff (min (b * 2 ^ attempt) MAX_BACKOFF_SECONDS)])
              from by simp [watcherRetryGo, hf], ht, List.append_assoc]⟩
        · by_cases h3 : s = 403
          · subst h3
            exact ⟨[REv.call attempt], ROut.raised (CallRes.httpErr 403),
              watcherRetryGo_step_403 f b r attempt le acc hf⟩
          · obtain ⟨t, out, ht⟩ := ih (attempt + 1) (some (CallRes.httpErr s))
              (acc ++ [REv.call attempt, REv.backoff (b * 2 ^ attempt)])
            exact ⟨[REv.call attempt, REv.backoff (b * 2 ^ attempt)] ++ t,
              out, by
              rw [watcherRetryGo_step_other f b r attempt le acc s h1 h2 h3 hf,
                ht, List.append_assoc]⟩
    · obtain ⟨t, out, ht⟩ := ih (attempt + 1) (some CallRes.netErr)
        (acc ++ [REv.call attempt, REv.backoff (b * 2 ^ attempt)])
      exact ⟨[REv.call attempt, REv.backoff (b * 2 ^ attempt)] ++ t, out, by
        rw [show watcherRetryGo f b (r + 1) attempt le acc
            = watcherRetryGo f b r (attempt + 1) (some CallRes.netErr)
                (acc ++ [REv.call attempt, REv.backoff (b * 2 ^ attempt)])
          from by simp [watcherRetryGo, hf], ht, List.append_assoc]⟩

theorem client_calls_first {α : Type} (f : ℕ → CallRes α) (r attempt : ℕ)
    (le : Option (CallRes α)) (acc : List REv) (hr : r ≠ 0) :
    ∃ t out, clientRetryGo f r attempt le acc
      = (acc ++ REv.call attempt :: t, out) := by
  obtain ⟨r', rfl⟩ : ∃ r', r = r' + 1 := ⟨r - 1, by omega⟩
  rcases hf : f attempt with a | s | _
  · exact ⟨[], ROut.success a, clientRetryGo_step_ok f r' attempt le acc a hf⟩
  · by_cases h401 : s = 401
    · subst h401
      obtain ⟨t, out, ht⟩ := clientRetryGo_trace_prefix f r' (attempt + 1)
        (some (CallRes.httpErr 401)) (acc ++ [REv.call attempt, REv.reauth])
      exact ⟨REv.reauth :: t, out, by
        rw [clientRetryGo_step_401 f r' attempt le acc hf, ht]
        simp⟩
    · by_cases hs : RETRYABLE_STATUS_CODES.contains s = true
      · obtain ⟨t, out, ht⟩ := clientRetryGo_trace_prefix f r' (attempt + 1)
          (some (CallRes.httpErr s))
          (acc ++ [REv.call attempt, REv.backoff (INITIAL_BACKOFF * 2 ^ attempt)])
        exact ⟨REv.backoff (INITIAL_BACKOFF * 2 ^ attempt) :: t, out, by
          rw [clientRetryGo_step_retryable f r' attempt le acc s hs hf, ht]
          simp⟩
      · exact ⟨[], ROut.raised (CallRes.httpErr s),
          clientRetryGo_step_fatal f r' attempt le acc s h401
            (by simpa using hs) hf⟩
  · obtain ⟨t, out, ht⟩ := clientRetryGo_trace_prefix f r' (attempt + 1)
      (some CallRes.netErr)
      (acc ++ [REv.call attempt, REv.backoff (INITIAL_BACKOFF * 2 ^ attempt)])
    exact ⟨REv.backoff (INITIAL_BACKOFF * 2 ^ attempt) :: t, out, by
      rw [clientRetryGo_step_net f r' attempt le acc hf, ht]
      simp⟩

theorem watcher_calls_first {α : Type} (f : ℕ → CallRes α) (b : ℚ)
    (r attempt : ℕ) (le : Option (CallRes α)) (acc : List REv) (hr : r ≠ 0) :
    ∃ t out, watcherRetryGo f b r attempt le acc
      = (acc ++ REv.call attempt :: t, out) := by
  obtain ⟨r', rfl⟩ : ∃ r', r = r' + 1 := ⟨r - 1, by omega⟩
  rcases hf : f attempt with a | s | _
  · exact ⟨[], ROut.success a, watcherRetryGo_step_ok f b r' attempt le acc a hf⟩
  · by_cases h1 : s = 401
    · subst h1
      obtain ⟨t, out, ht⟩ := watcherRetryGo_trace_prefix f b r' (attempt + 1)
        (some (CallRes.httpErr 401)) (acc ++ [REv.call attempt, REv.reauth])
      exact ⟨REv.reauth :: t, out, by
        rw [watcherRetryGo_step_401 f b r' attempt le acc hf, ht]
        simp⟩
    · by_cases h2 : s = 429
      · subst h2
        obtain ⟨t, out, ht⟩ := watcherRetryGo_trace_prefix f b r' (attempt + 1)
          (some (CallRes.httpErr 429))
          (acc ++ [REv.call attempt,
            REv.backoff (min (b * 2 ^ attempt) MAX_BACKOFF_SECONDS)])
        exact ⟨REv.backoff (min (b * 2 ^ attempt) MAX_BACKOFF_SECONDS) :: t,
          out, by
          rw [show watcherRetryGo f b (r' + 1) attempt le acc
              = watcherRetryGo f b r' (attempt + 1) (some (CallRes.httpErr 429))
                  (acc ++ [REv.call attempt,
                    REv.backoff (min (b * 2 ^ attempt) MAX_BACKOFF_SECONDS)])
            from by simp [watcherRetryGo, hf], ht]
          simp⟩
      · by_cases h3 : s = 403
        · subst h3
          exact ⟨[], ROut.raised (CallRes.httpErr 403),
            watcherRetryGo_step_403 f b r' attempt le acc hf⟩
        · obtain ⟨t, out, ht⟩ := watcherRetryGo_trace_prefix f b r' (attempt + 1)
            (some (CallRes.httpErr s))
            (acc ++ [REv.call attempt, REv.backoff (b * 2 ^ attempt)])
          exact ⟨REv.backoff (b * 2 ^ attempt) :: t, out, by
            rw [watcherRetryGo_step_other f b r' attempt le acc s h1 h2 h3 hf,
              ht]
            simp⟩
  · obtain ⟨t, out, ht⟩ := watcherRetryGo_trace_prefix f b r' (attempt + 1)
      (some CallRes.netErr)
      (acc ++ [REv.call attempt, REv.backoff (b * 2 ^ attempt)])
    exact ⟨REv.backoff (b * 2 ^ attempt) :: t, out, by
      rw [show watcherRetryGo f b (r' + 1) attempt le acc
          = watcherRetryGo f b r' (attempt + 1) (some CallRes.netErr)
              (acc ++ [REv.call attempt, REv.backoff (b * 2 ^ attempt)])
        from by simp [watcherRetryGo, hf], ht]
      simp⟩

theorem countCalls_append (a b : List REv) :
    countCalls (a ++ b) = countCalls a + countCalls b :=
  List.countP_append _ a b

theorem countCalls_call_reauth (n : ℕ) :
    countCalls [REv.call n, REv.reauth] = 1 := rfl

theorem countCalls_call_backoff (n : ℕ) (d : ℚ) :
    countCalls [REv.call n, REv.backoff d] = 1 := rfl

theorem client_countCalls_le {α : Type} (f : ℕ → CallRes α) :
    ∀ (r attempt : ℕ) (le : Option (CallRes α)) (acc : List REv),
      countCalls (clientRetryGo f r attempt le acc).1 ≤ countCalls acc + r := by
  intro r
  induction r with
  | zero =>
    intro attempt le acc
    cases le <;> simp [clientRetryGo]
  | succ r ih =>
    intro attempt le acc
    rcases hf : f attempt with a | s | _
    · rw [clientRetryGo_step_ok f r attempt le acc a hf]
      simp only [countCalls_append]
      have : countCalls [REv.call attempt] = 1 := rfl
      omega
    · by_cases h401 : s = 401
      · subst h401
        rw [clientRetryGo_step_401 f r attempt le acc hf]
        have h := ih (attempt + 1) (some (CallRes.httpErr 401))
          (acc ++ [REv.call attempt, REv.reauth])
        simp only [countCalls_append, countCalls_call_reauth, countCalls_call_backoff] at h
        omega
      · by_cases hs : RETRYABLE_STATUS_CODES.contains s = true
        · rw [clientRetryGo_step_retryable f r attempt le acc s hs hf]
          have h := ih (attempt + 1) (some (CallRes.httpErr s))
            (acc ++ [REv.call attempt,
              REv.backoff (INITIAL_BACKOFF * 2 ^ attempt)])
          simp only [countCalls_append, countCalls_call_reauth, countCalls_call_backoff] at h
          omega
        · rw [clientRetryGo_step_fatal f r attempt le acc s h401
            (by simpa using hs) hf]
          simp only [countCalls_append]
          have : countCalls [REv.call attempt] = 1 := rfl
          omega
    · rw [clientRetryGo_step_net f r attempt le acc hf]
      have h := ih (attempt + 1) (some CallRes.netErr)
        (acc ++ [REv.call attempt, REv.backoff (INITIAL_BACKOFF * 2 ^ attempt)])
      simp only [countCalls_append, countCalls_call_reauth, countCalls_call_backoff] at h
      omega

theorem watcher_countCalls_le {α : Type} (f : ℕ → CallRes α) (b : ℚ) :
    ∀ (r attempt : ℕ) (le : Option (CallRes α)) (acc : List REv),
      countCalls (watcherRetryGo f b r attempt le acc).1
        ≤ countCalls acc + r := by
  intro r
  induction r with
  | zero =>
    intro attempt le acc
    cases le <;> simp [watcherRetryGo]
  | succ r ih =>
    intro attempt le acc
    rcases hf : f attempt with a | s | _
    · rw [watcherRetryGo_step_ok f b r attempt le acc a hf]
      simp only [countCalls_append]
      have : countCalls [REv.call attempt] = 1 := rfl
      omega
    · by_cases h1 : s = 401
      · subst h1
        rw [watcherRetryGo_step_401 f b r attempt le acc hf]
        have h := ih (attempt + 1) (some (CallRes.httpErr 401))
          (acc ++ [REv.call attempt, REv.reauth])
        simp only [countCalls_append, countCalls_call_reauth, countCalls_call_backoff] at h
        omega
      · by_cases h2 : s = 429
        · subst h2
          rw [show watcherRetryGo f b (r + 1) attempt le acc
              = watcherRetryGo f b r (attempt + 1) (some (CallRes.httpErr 429))
                  (acc ++ [REv.call attempt,
                    REv.backoff (min (b * 2 ^ attempt) MAX_BACKOFF_SECONDS)])
            from by simp [watcherRetryGo, hf]]
          have h := ih (attempt + 1) (some (CallRes.httpErr 429))
            (acc ++ [REv.call attempt,
              REv.backoff (min (b * 2 ^ attempt) MAX_BACKOFF_SECONDS)])
          simp only [countCalls_append, countCalls_call_reauth, countCalls_call_backoff] at h
          omega
        · by_cases h3 : s = 403
          · subst h3
            rw [watcherRetryGo_step_403 f b r attempt le acc hf]
            simp only [countCalls_append]
            have : countCalls [REv.call attempt] = 1 := rfl
            omega
          · rw [watcherRetryGo_step_other f b r attempt le acc s h1 h2 h3 hf]
            have h := ih (attempt + 1) (some (CallRes.httpErr s))
              (acc ++ [REv.call attempt, REv.backoff (b * 2 ^ attempt)])
            simp only [countCalls_append, countCalls_call_reauth, countCalls_call_backoff] at h
            omega
    · rw [show watcherRetryGo f b (r + 1) attempt le acc
          = watcherRetryGo f b r (attempt + 1) (some CallRes.netErr)
              (acc ++ [REv.call attempt, REv.backoff (b * 2 ^ attempt)])
        from by simp [watcherRetryGo, hf]]
      have h := ih (attempt + 1) (some CallRes.netErr)
        (acc ++ [REv.call attempt, REv.backoff (b * 2 ^ attempt)])
      simp only [countCalls_append, countCalls_call_reauth, countCalls_call_backoff] at h
      omega

/-- C4 counterexample: through `GmailWatcher._fetch_messages_with_retry`
an HTTP 400 failure — a status outside {401, 429, 500, 503} — does **not**
propagate immediately: the wrapped call is attempted three times with
backoff sleeps in between, and only then is the error raised. -/
theorem C4_counterexample :
    _fetch_messages_with_retry (fun _ => (CallRes.httpErr 400 : CallRes ℕ)) 1
      = ([REv.call 0, REv.backoff 1, REv.call 1, REv.backoff 2, REv.call 2,
          REv.backoff 4], ROut.raised (CallRes.httpErr 400)) ∧
    countCalls
      (_fetch_messages_with_retry
        (fun _ => (CallRes.httpErr 400 : CallRes ℕ)) 1).1 = 3 ∧
    RETRYABLE_STATUS_CODES.contains 400 = false ∧ (400 : ℕ) ≠ 401 := by
  have e1 : _fetch_messages_with_retry
        (fun _ => (CallRes.httpErr 400 : CallRes ℕ)) 1
      = watcherRetryGo (fun _ => (CallRes.httpErr 400 : CallRes ℕ)) 1 2 1
          (some (CallRes.httpErr 400)) [REv.call 0, REv.backoff (1 * 2 ^ 0)] :=
    watcherRetryGo_step_other _ 1 2 0 none [] 400 (by norm_num) (by norm_num)
      (by norm_num) rfl
  have e2 : watcherRetryGo (fun _ => (CallRes.httpErr 400 : CallRes ℕ)) 1 2 1
        (some (CallRes.httpErr 400)) [REv.call 0, REv.backoff (1 * 2 ^ 0)]
      = watcherRetryGo (fun _ => (CallRes.httpErr 400 : CallRes ℕ)) 1 1 2
          (some (CallRes.httpErr 400))
          [REv.call 0, REv.backoff (1 * 2 ^ 0),
           REv.call 1, REv.backoff (1 * 2 ^ 1)] :=
    watcherRetryGo_step_other _ 1 1 1 _ _ 400 (by norm_num) (by norm_num)
      (by norm_num) rfl
  have e3 : watcherRetryGo (fun _ => (CallRes.httpErr 400 : CallRes ℕ)) 1 1 2
        (some (CallRes.httpErr 400))
        [REv.call 0, REv.backoff (1 * 2 ^ 0),
         REv.call 1, REv.backoff (1 * 2 ^ 1)]
      = watcherRetryGo (fun _ => (CallRes.httpErr 400 : CallRes ℕ)) 1 0 3
          (some (CallRes.httpErr 400))
          [REv.call 0, REv.backoff (1 * 2 ^ 0),
           REv.call 1, REv.backoff (1 * 2 ^ 1),
           REv.call 2, REv.backoff (1 * 2 ^ 2)] :=
    watcherRetryGo_step_other _ 1 0 2 _ _ 400 (by norm_num) (by norm_num)
      (by norm_num) rfl
  have key : _fetch_messages_with_retry
        (fun _ => (CallRes.httpErr 400 : CallRes ℕ)) 1
      = ([REv.call 0, REv.backoff (1 * 2 ^ 0),
          REv.call 1, REv.backoff (1 * 2 ^ 1),
          REv.call 2, REv.backoff (1 * 2 ^ 2)],
         ROut.raised (CallRes.httpErr 400)) := by
    rw [e1, e2, e3]
    simp [watcherRetryGo]
  refine ⟨?_, ?_, by decide, by decide⟩
  · rw [key]
    norm_num
  · rw [key]
    rfl

/-- C4 (amended): through `GmailClient._execute_with_retry`: (a) a call
whose first `k < 3` attempts fail retryably (HTTP 429/500/503 or a
transient network error) and whose attempt `k` succeeds is retried exactly
`k` times with backoff `INITIAL_BACKOFF * 2^attempt` and returns the
success value; (b) a first-call failure with any HTTP status outside
{401, 429, 500, 503} is never retried — it propagates after exactly one
call; (c) when all `MAX_RETRIES = 3` attempts fail retryably the last
observed error is raised, never a silent `None`/success.  Through
`GmailWatcher._fetch_messages_with_retry` the immediate-propagation set is
different: (d) HTTP 403 propagates after exactly one call, while (e) any
other HTTP status outside {401, 403, 429} (e.g. 400) **is** retried with
backoff `b * 2^attempt` and raised as the last observed error only on
exhaustion. -/
theorem C4_retry_backoff_bound :
    (∀ {α : Type} (f : ℕ → CallRes α) (k : ℕ) (a : α),
       k < MAX_RETRIES →
       (∀ i, i < k → retryableRes (f i) = true) →
       f k = CallRes.ok a →
       _execute_with_retry f
         = ((List.range k).flatMap (fun i =>
              [REv.call i, REv.backoff (INITIAL_BACKOFF * 2 ^ i)])
             ++ [REv.call k], ROut.success a)) ∧
    (∀ {α : Type} (f : ℕ → CallRes α) (s : ℕ),
       f 0 = CallRes.httpErr s → s ≠ 401 →
       RETRYABLE_STATUS_CODES.contains s = false →
       _execute_with_retry f
         = ([REv.call 0], ROut.raised (CallRes.httpErr s))) ∧
    (∀ {α : Type} (f : ℕ → CallRes α),
       (∀ i, i < MAX_RETRIES → retryableRes (f i) = true) →
       _execute_with_retry f
         = ((List.range MAX_RETRIES).flatMap (fun i =>
              [REv.call i, REv.backoff (INITIAL_BACKOFF * 2 ^ i)]),
            ROut.raised (f 2))) ∧
    (∀ {α : Type} (f : ℕ → CallRes α) (b : ℚ),
       f 0 = CallRes.httpErr 403 →
       _fetch_messages_with_retry f b
         = ([REv.call 0], ROut.raised (CallRes.httpErr 403))) ∧
    (∀ {α : Type} (f : ℕ → CallRes α) (b : ℚ) (s : ℕ),
       s ≠ 401 → s ≠ 403 → s ≠ 429 →
       (∀ i, i < MAX_RETRIES → f i = CallRes.httpErr s) →
       _fetch_messages_with_retry f b
         = ((List.range MAX_RETRIES).flatMap (fun i =>
              [REv.call i, REv.backoff (b * 2 ^ i)]),
            ROut.raised (CallRes.httpErr s))) := by
  refine ⟨?_, ?_, ?_, ?_, ?_⟩
  · intro α f k a hk hall hfk
    have hk3 : k < 3 := hk
    interval_cases k
    · have e1 : _execute_with_retry f = ([REv.call 0], ROut.success a) :=
        clientRetryGo_step_ok f 2 0 none [] a hfk
      rw [e1]
      simp
    · have e1 : _execute_with_retry f
          = clientRetryGo f 2 1 (some (f 0))
              [REv.call 0, REv.backoff (INITIAL_BACKOFF * 2 ^ 0)] :=
        clientRetryGo_step_retryableRes f 2 0 none [] (hall 0 (by decide))
      have e2 : clientRetryGo f 2 1 (some (f 0))
            [REv.call 0, REv.backoff (INITIAL_BACKOFF * 2 ^ 0)]
          = ([REv.call 0, REv.backoff (INITIAL_BACKOFF * 2 ^ 0), REv.call 1],
             ROut.success a) :=
        clientRetryGo_step_ok f 1 1 (some (f 0)) _ a hfk
      rw [e1, e2]
      simp [List.range_succ]
    · have e1 : _execute_with_retry f
          = clientRetryGo f 2 1 (some (f 0))
              [REv.call 0, REv.backoff (INITIAL_BACKOFF * 2 ^ 0)] :=
        clientRetryGo_step_retryableRes f 2 0 none [] (hall 0 (by decide))
      have e2 : clientRetryGo f 2 1 (some (f 0))
            [REv.call 0, REv.backoff (INITIAL_BACKOFF * 2 ^ 0)]
          = clientRetryGo f 1 2 (some (f 1))
              [REv.call 0, REv.backoff (INITIAL_BACKOFF * 2 ^ 0),
               REv.call 1, REv.backoff (INITIAL_BACKOFF * 2 ^ 1)] :=
        clientRetryGo_step_retryableRes f 1 1 (some (f 0)) _
          (hall 1 (by decide))
      have e3 : clientRetryGo f 1 2 (some (f 1))
            [REv.call 0, REv.backoff (INITIAL_BACKOFF * 2 ^ 0),
             REv.call 1, REv.backoff (INITIAL_BACKOFF * 2 ^ 1)]
          = ([REv.call 0, REv.backoff (INITIAL_BACKOFF * 2 ^ 0),
              REv.call 1, REv.backoff (INITIAL_BACKOFF * 2 ^ 1), REv.call 2],
             ROut.success a) :=
        clientRetryGo_step_ok f 0 2 (some (f 1)) _ a hfk
      rw [e1, e2, e3]
      simp [List.range_succ]
  · intro α f s hf h401 hs
    exact clientRetryGo_step_fatal f 2 0 none [] s h401 hs hf
  · intro α f hall
    have e1 : _execute_with_retry f
        = clientRetryGo f 2 1 (some (f 0))
            [REv.call 0, REv.backoff (INITIAL_BACKOFF * 2 ^ 0)] :=
      clientRetryGo_step_retryableRes f 2 0 none [] (hall 0 (by decide))
    have e2 : clientRetryGo f 2 1 (some (f 0))
          [REv.call 0, REv.backoff (INITIAL_BACKOFF * 2 ^ 0)]
        = clientRetryGo f 1 2 (some (f 1))
            [REv.call 0, REv.backoff (INITIAL_BACKOFF * 2 ^ 0),
             REv.call 1, REv.backoff (INITIAL_BACKOFF * 2 ^ 1)] :=
      clientRetryGo_step_retryableRes f 1 1 (some (f 0)) _
        (hall 1 (by decide))
    have e3 : clientRetryGo f 1 2 (some (f 1))
          [REv.call 0, REv.backoff (INITIAL_BACKOFF * 2 ^ 0),
           REv.call 1, REv.backoff (INITIAL_BACKOFF * 2 ^ 1)]
        = clientRetryGo f 0 3 (some (f 2))
            [REv.call 0, REv.backoff (INITIAL_BACKOFF * 2 ^ 0),
             REv.call 1, REv.backoff (INITIAL_BACKOFF * 2 ^ 1),
             REv.call 2, REv.backoff (INITIAL_BACKOFF * 2 ^ 2)] :=
      clientRetryGo_step_retryableRes f 0 2 (some (f 1)) _
        (hall 2 (by decide))
    have e4 : clientRetryGo f 0 3 (some (f 2))
          [REv.call 0, REv.backoff (INITIAL_BACKOFF * 2 ^ 0),
           REv.call 1, REv.backoff (INITIAL_BACKOFF * 2 ^ 1),
           REv.call 2, REv.backoff (INITIAL_BACKOFF * 2 ^ 2)]
        = ([REv.call 0, REv.backoff (INITIAL_BACKOFF * 2 ^ 0),
            REv.call 1, REv.backoff (INITIAL_BACKOFF * 2 ^ 1),
            REv.call 2, REv.backoff (INITIAL_BACKOFF * 2 ^ 2)],
           ROut.raised (f 2)) := by
      simp [clientRetryGo]
    rw [e1, e2, e3, e4]
    simp [MAX_RETRIES, List.range_succ]
  · intro α f b hf
    exact watcherRetryGo_step_403 f b 2 0 none [] hf
  · intro α f b s h1 h3 h2 hall
    have e1 : _fetch_messages_with_retry f b
        = watcherRetryGo f b 2 1 (some (CallRes.httpErr s))
            [REv.call 0, REv.backoff (b * 2 ^ 0)] :=
      watcherRetryGo_step_other f b 2 0 none [] s h1 h2 h3
        (hall 0 (by decide))
    have e2 : watcherRetryGo f b 2 1 (some (CallRes.httpErr s))
          [REv.call 0, REv.backoff (b * 2 ^ 0)]
        = watcherRetryGo f b 1 2 (some (CallRes.httpErr s))
            [REv.call 0, REv.backoff (b * 2 ^ 0),
             REv.call 1, REv.backoff (b * 2 ^ 1)] :=
      watcherRetryGo_step_other f b 1 1 (some (CallRes.httpErr s)) _ s h1 h2 h3
        (hall 1 (by decide))
    have e3 : watcherRetryGo f b 1 2 (some (CallRes.httpErr s))
          [REv.call 0, REv.backoff (b * 2 ^ 0),
           REv.call 1, REv.backoff (b * 2 ^ 1)]
        = watcherRetryGo f b 0 3 (some (CallRes.httpErr s))
            [REv.call 0, REv.backoff (b * 2 ^ 0),
             REv.call 1, REv.backoff (b * 2 ^ 1),
             REv.call 2, REv.backoff (b * 2 ^ 2)] :=
      watcherRetryGo_step_other f b 0 2 (some (CallRes.httpErr s)) _ s h1 h2 h3
        (hall 2 (by decide))
    have e4 : watcherRetryGo f b 0 3 (some (CallRes.httpErr s))
          [REv.call 0, REv.backoff (b * 2 ^ 0),
           REv.call 1, REv.backoff (b * 2 ^ 1),
           REv.call 2, REv.backoff (b * 2 ^ 2)]
        = ([REv.call 0, REv.backoff (b * 2 ^ 0),
            REv.call 1, REv.backoff (b * 2 ^ 1),
            REv.call 2, REv.backoff (b * 2 ^ 2)],
           ROut.raised (CallRes.httpErr s)) := by
      simp [watcherRetryGo]
    rw [e1, e2, e3, e4]
    simp [MAX_RETRIES, List.range_succ]

/-- Witness for the amended C4 at concrete units of work: one 500 failure
then success is retried once and returns the value; a 404 through the
client wrapper propagates after one call; a 403 through the watcher
wrapper propagates after one call. -/
theorem C4_retry_backoff_bound_witness :
    _execute_with_retry
        (fun i => if i = 0 then CallRes.httpErr 500 else CallRes.ok 42)
      = ((List.range 1).flatMap (fun i =>
           [REv.call i, REv.backoff (INITIAL_BACKOFF * 2 ^ i)])
          ++ [REv.call 1], ROut.success 42) ∧
    _execute_with_retry (fun _ => (CallRes.httpErr 404 : CallRes ℕ))
      = ([REv.call 0], ROut.raised (CallRes.httpErr 404)) ∧
    _fetch_messages_with_retry (fun _ => (CallRes.httpErr 403 : CallRes ℕ)) 1
      = ([REv.call 0], ROut.raised (CallRes.httpErr 403)) :=
  ⟨C4_retry_backoff_bound.1 _ 1 42 (by decide)
     (fun i hi => by interval_cases i; decide) (by decide),
   C4_retry_backoff_bound.2.1 _ 404 rfl (by decide) (by decide),
   C4_retry_backoff_bound.2.2.2.1 _ 1 rfl⟩

/-- Unit of work refuting the "401 does not count toward the retry budget"
reading: a 401 on call 0, rate limiting on calls 1 and 2, success on
call 3. -/
def c5seq : ℕ → CallRes ℕ := fun i =>
  if i = 0 then CallRes.httpErr 401
  else if i = 3 then CallRes.ok 7
  else CallRes.httpErr 429

/-- C5 counterexample: with `c5seq`, the 401-triggered retry consumes one
iteration of the shared three-iteration loop, so only two backoff retries
remain after re-authentication and the wrapper raises the 429 after three
calls in total — even though a fourth call (index 3, the third **non-401**
attempt) would have succeeded.  Under the claim, where 401 does not count
toward the budget of non-401 attempts, that fourth call would have been
made and the call would have returned the success value. -/
theorem C5_counterexample :
    c5seq 0 = CallRes.httpErr 401 ∧ c5seq 3 = CallRes.ok 7 ∧
    _execute_with_retry c5seq
      = ([REv.call 0, REv.reauth, REv.call 1,
          REv.backoff (INITIAL_BACKOFF * 2 ^ 1), REv.call 2,
          REv.backoff (INITIAL_BACKOFF * 2 ^ 2)],
         ROut.raised (CallRes.httpErr 429)) ∧
    countCalls (_execute_with_retry c5seq).1 = 3 := by
  have e1 : _execute_with_retry c5seq
      = clientRetryGo c5seq 2 1 (some (CallRes.httpErr 401))
          [REv.call 0, REv.reauth] :=
    clientRetryGo_step_401 c5seq 2 0 none [] rfl
  have e2 : clientRetryGo c5seq 2 1 (some (CallRes.httpErr 401))
        [REv.call 0, REv.reauth]
      = clientRetryGo c5seq 1 2 (some (CallRes.httpErr 429))
          [REv.call 0, REv.reauth, REv.call 1,
           REv.backoff (INITIAL_BACKOFF * 2 ^ 1)] :=
    clientRetryGo_step_retryable c5seq 1 1 _ _ 429 (by decide) rfl
  have e3 : clientRetryGo c5seq 1 2 (some (CallRes.httpErr 429))
        [REv.call 0, REv.reauth, REv.call 1,
         REv.backoff (INITIAL_BACKOFF * 2 ^ 1)]
      = clientRetryGo c5seq 0 3 (some (CallRes.httpErr 429))
          [REv.call 0, REv.reauth, REv.call 1,
           REv.backoff (INITIAL_BACKOFF * 2 ^ 1), REv.call 2,
           REv.backoff (INITIAL_BACKOFF * 2 ^ 2)] :=
    clientRetryGo_step_retryable c5seq 0 2 _ _ 429 (by decide) rfl
  have key : _execute_with_retry c5seq
      = ([REv.call 0, REv.reauth, REv.call 1,
          REv.backoff (INITIAL_BACKOFF * 2 ^ 1), REv.call 2,
          REv.backoff (INITIAL_BACKOFF * 2 ^ 2)],
         ROut.raised (CallRes.httpErr 429)) := by
    rw [e1, e2, e3]
    simp [clientRetryGo]
  refine ⟨rfl, rfl, key, ?_⟩
  rw [key]
  rfl

/-- C5 (amended): on HTTP 401 both wrappers invalidate the cached
credential and re-authenticate before the next call of the unit of work —
the trace of a 401 first call always begins `call 0, reauth, call 1` —
but the 401-triggered retry consumes one iteration of the **same shared**
`MAX_RETRIES = 3` loop (there is no separate budget for non-401 attempts):
the number of calls of the wrapped unit of work never exceeds 3 in either
wrapper, and three consecutive 401s exhaust the loop and raise the 401. -/
theorem C5_reauth_on_401 :
    (∀ {α : Type} (f : ℕ → CallRes α),
       f 0 = CallRes.httpErr 401 →
       ∃ t out, _execute_with_retry f
         = (REv.call 0 :: REv.reauth :: REv.call 1 :: t, out)) ∧
    (∀ {α : Type} (f : ℕ → CallRes α) (b : ℚ),
       f 0 = CallRes.httpErr 401 →
       ∃ t out, _fetch_messages_with_retry f b
         = (REv.call 0 :: REv.reauth :: REv.call 1 :: t, out)) ∧
    (∀ {α : Type} (f : ℕ → CallRes α),
       countCalls (_execute_with_retry f).1 ≤ MAX_RETRIES) ∧
    (∀ {α : Type} (f : ℕ → CallRes α) (b : ℚ),
       countCalls (_fetch_messages_with_retry f b).1 ≤ MAX_RETRIES) ∧
    (∀ {α : Type} (f : ℕ → CallRes α),
       (∀ i, i < MAX_RETRIES → f i = CallRes.httpErr 401) →
       _execute_with_retry f
         = ([REv.call 0, REv.reauth, REv.call 1, REv.reauth, REv.call 2,
             REv.reauth], ROut.raised (CallRes.httpErr 401))) := by
  refine ⟨?_, ?_, ?_, ?_, ?_⟩
  · intro α f h
    obtain ⟨t, out, ht⟩ := client_calls_first f 2 1
      (some (CallRes.httpErr 401)) [REv.call 0, REv.reauth] (by norm_num)
    refine ⟨t, out, ?_⟩
    have e1 : _execute_with_retry f
        = clientRetryGo f 2 1 (some (CallRes.httpErr 401))
            [REv.call 0, REv.reauth] :=
      clientRetryGo_step_401 f 2 0 none [] h
    rw [e1, ht]
    rfl
  · intro α f b h
    obtain ⟨t, out, ht⟩ := watcher_calls_first f b 2 1
      (some (CallRes.httpErr 401)) [REv.call 0, REv.reauth] (by norm_num)
    refine ⟨t, out, ?_⟩
    have e1 : _fetch_messages_with_retry f b
        = watcherRetryGo f b 2 1 (some (CallRes.httpErr 401))
            [REv.call 0, REv.reauth] :=
      watcherRetryGo_step_401 f b 2 0 none [] h
    rw [e1, ht]
    rfl
  · intro α f
    have h := client_countCalls_le f MAX_RETRIES 0 none []
    simpa [countCalls] using h
  · intro α f b
    have h := watcher_countCalls_le f b MAX_RETRIES 0 none []
    simpa [countCalls] using h
  · intro α f hall
    have e1 : _execute_with_retry f
        = clientRetryGo f 2 1 (some (CallRes.httpErr 401))
            [REv.call 0, REv.reauth] :=
      clientRetryGo_step_401 f 2 0 none [] (hall 0 (by decide))
    have e2 : clientRetryGo f 2 1 (some (CallRes.httpErr 401))
          [REv.call 0, REv.reauth]
        = clientRetryGo f 1 2 (some (CallRes.httpErr 401))
            [REv.call 0, REv.reauth, REv.call 1, REv.reauth] :=
      clientRetryGo_step_401 f 1 1 _ _ (hall 1 (by decide))
    have e3 : clientRetryGo f 1 2 (some (CallRes.httpErr 401))
          [REv.call 0, REv.reauth, REv.call 1, REv.reauth]
        = clientRetryGo f 0 3 (some (CallRes.httpErr 401))
            [REv.call 0, REv.reauth, REv.call 1, REv.reauth, REv.call 2,
             REv.reauth] :=
      clientRetryGo_step_401 f 0 2 _ _ (hall 2 (by decide))
    rw [e1, e2, e3]
    simp [clientRetryGo]

/-- Witness for the amended C5 at a concrete unit of work (401 then
success): the trace begins with call, re-auth, call, and the wrapper makes
at most three calls. -/
theorem C5_reauth_on_401_witness :
    (∃ t out, _execute_with_retry
        (fun i => if i = 0 then CallRes.httpErr 401 else CallRes.ok 9)
      = (REv.call 0 :: REv.reauth :: REv.call 1 :: t, out)) ∧
    countCalls (_execute_with_retry
        (fun i => if i = 0 then CallRes.httpErr 401 else CallRes.ok 9)).1
      ≤ MAX_RETRIES ∧
    _execute_with_retry (fun _ => (CallRes.httpErr 401 : CallRes ℕ))
      = ([REv.call 0, REv.reauth, REv.call 1, REv.reauth, REv.call 2,
          REv.reauth], ROut.raised (CallRes.httpErr 401)) :=
  ⟨C5_reauth_on_401.1 _ (by decide),
   C5_reauth_on_401.2.2.1 _,
   C5_reauth_on_401.2.2.2.2 _ (fun i _ => rfl)⟩

/-! ### Rate limiter (C6) -/

theorem length_dropWhile_le {α : Type} (p : α → Bool) :
    ∀ l : List α, (l.dropWhile p).length ≤ l.length := by
  intro l
  induction l with
  | nil => simp
  | cons x xs ih =>
    rw [List.dropWhile_cons]
    split
    · exact le_trans ih (by simp)
    · simp

theorem dropWhile_head_false {α : Type} (p : α → Bool) :
    ∀ (l : List α) (a : α) (t : List α), l.dropWhile p = a :: t → p a = false := by
  intro l
  induction l with
  | nil => intro a t h; simp at h
  | cons x xs ih =>
    intro a t h
    rw [List.dropWhile_cons] at h
    by_cases hx : p x = true
    · rw [if_pos hx] at h
      exact ih a t h
    · rw [if_neg hx] at h
      obtain ⟨rfl, -⟩ := List.cons.inj h
      simpa using hx

theorem sorted_dropWhile_eq_filter (c : ℚ) :
    ∀ ts : List ℚ, List.Sorted (· ≤ ·) ts →
      ts.dropWhile (fun t => t < c) = ts.filter (fun t => c ≤ t) := by
  intro ts
  induction ts with
  | nil => intro _; rfl
  | cons x xs ih =>
    intro hs
    rw [List.sorted_cons] at hs
    by_cases hx : x < c
    · rw [List.dropWhile_cons, if_pos (by simpa using hx),
        List.filter_cons_of_neg (by simpa using not_le.mpr hx)]
      exact ih hs.2
    · rw [List.dropWhile_cons, if_neg (by simpa using hx),
        List.filter_cons_of_pos (by simpa using not_lt.mp hx)]
      rw [List.filter_eq_self.mpr]
      intro a ha
      simpa using le_trans (not_lt.mp hx) (hs.1 a ha)

theorem check_allowed (st : RateLimiter) (now : ℚ)
    (h : (_prune_expired st now).length < st.max_sends) :
    RateLimiter.check st now = some (true, 0) := by
  simp only [RateLimiter.check]
  rw [if_pos h]

theorem check_blocked (st : RateLimiter) (now : ℚ) (oldest : ℚ) (rest : List ℚ)
    (h1 : _prune_expired st now = oldest :: rest)
    (h2 : st.max_sends ≤ (oldest :: rest).length) :
    RateLimiter.check st now
      = some (false, max (⌊oldest + DEFAULT_WINDOW_SECONDS - now⌋ + 1) 1) := by
  have hnot : ¬ ((_prune_expired st now).length < st.max_sends) := by
    rw [h1]; exact not_lt.mpr h2
  have hhead : ¬ (oldest < now - DEFAULT_WINDOW_SECONDS) := by
    have := dropWhile_head_false _ _ _ _ h1
    simpa using this
  have hnn : 0 ≤ oldest + DEFAULT_WINDOW_SECONDS - now := by linarith [not_lt.mp hhead]
  simp only [RateLimiter.check]
  rw [if_neg hnot, h1]
  simp only [pyInt, if_pos hnn]

/-- C6 counterexample: with one send recorded at time 0, `max_sends = 1`
and `check()` called at time 0, the remaining time until the oldest entry exits
the window is exactly 3600 seconds; the code returns a wait of `3601`
(`int(...)+1`), while the claimed value — the ceiling of the remaining
time floored at 1 second — is `3600`. -/
theorem C6_counterexample :
    RateLimiter.check ⟨[0], 1⟩ 0 = some (false, 3601) ∧
    (3601 : ℤ) ≠ max ⌈(0 : ℚ) + DEFAULT_WINDOW_SECONDS - 0⌉ 1 := by
  constructor
  · have h1 : _prune_expired ⟨[0], 1⟩ 0 = [(0 : ℚ)] := by
      simp only [_prune_expired, List.dropWhile_cons, DEFAULT_WINDOW_SECONDS]
      norm_num
    have h := check_blocked ⟨[0], 1⟩ 0 0 [] h1 (by simp)
    rw [h]
    norm_num [DEFAULT_WINDOW_SECONDS]
  · norm_num [DEFAULT_WINDOW_SECONDS]

/-- C6 (amended): `check()` first prunes the timestamps older than the
3600-second window (on a time-sorted deque the popleft loop removes exactly
those); if the remaining count is below `max_sends` it returns `(True, 0)`;
otherwise (with `max_sends ≥ 1`, the code indexes the deque) it returns
`(False, w)` with `w = max (⌊t⌋ + 1) 1 ≥ 1` where `t` is the time until
the oldest remaining timestamp exits the window — that is `⌈t⌉` except at
whole-second boundaries, where the code waits one extra second (`⌊t⌋ + 1`);
in particular after exactly `max_sends ≥ 1` sends inside the window the
result is `(False, w)` with `w ≥ 1`, and once time has advanced past the
window for the oldest entry (the rest being under the limit) `check()`
returns `(True, 0)` again. -/
theorem C6_rate_limiter_boundary (ts : List ℚ) (m : ℕ) (now : ℚ) :
    (List.Sorted (· ≤ ·) ts →
       _prune_expired ⟨ts, m⟩ now
         = ts.filter (fun t => now - DEFAULT_WINDOW_SECONDS ≤ t)) ∧
    ((_prune_expired ⟨ts, m⟩ now).length < m →
       RateLimiter.check ⟨ts, m⟩ now = some (true, 0)) ∧
    (∀ oldest rest, _prune_expired ⟨ts, m⟩ now = oldest :: rest →
       m ≤ (oldest :: rest).length →
       RateLimiter.check ⟨ts, m⟩ now
         = some (false, max (⌊oldest + DEFAULT_WINDOW_SECONDS - now⌋ + 1) 1) ∧
       1 ≤ max (⌊oldest + DEFAULT_WINDOW_SECONDS - now⌋ + 1) 1) ∧
    (ts.length = m → 1 ≤ m →
       (∀ t ∈ ts, ¬ t < now - DEFAULT_WINDOW_SECONDS) →
       ∃ w, RateLimiter.check ⟨ts, m⟩ now = some (false, w) ∧ 1 ≤ w) ∧
    (∀ oldest rest now', ts = oldest :: rest →
       oldest < now' - DEFAULT_WINDOW_SECONDS →
       rest.length < m →
       RateLimiter.check ⟨ts, m⟩ now' = some (true, 0)) := by
  refine ⟨fun hs => sorted_dropWhile_eq_filter _ ts hs,
    fun h => check_allowed ⟨ts, m⟩ now h,
    fun oldest rest h1 h2 => ⟨check_blocked ⟨ts, m⟩ now oldest rest h1 h2,
      le_max_right _ 1⟩, ?_, ?_⟩
  · intro hlen hm hall
    cases ts with
    | nil => simp at hlen; omega
    | cons t0 tr =>
      have h1 : _prune_expired ⟨t0 :: tr, m⟩ now = t0 :: tr := by
        rw [_prune_expired, List.dropWhile_cons,
          if_neg (by simpa using hall t0 (List.mem_cons_self t0 tr))]
      refine ⟨max (⌊t0 + DEFAULT_WINDOW_SECONDS - now⌋ + 1) 1,
        check_blocked ⟨t0 :: tr, m⟩ now t0 tr h1 (by rw [← hlen]),
        le_max_right _ 1⟩
  · intro oldest rest now' hts holdest hrest
    subst hts
    refine check_allowed _ now' ?_
    have hdrop : _prune_expired ⟨oldest :: rest, m⟩ now'
        = rest.dropWhile (fun t => t < now' - DEFAULT_WINDOW_SECONDS) := by
      rw [_prune_expired, List.dropWhile_cons, if_pos (by simpa using holdest)]
    rw [hdrop]
    exact lt_of_le_of_lt (length_dropWhile_le _ rest) hrest

/-- Witness for the amended C6 at concrete states: one send recorded at
time 0 with limit 2 is allowed; at the limit (one send, `max_sends = 1`,
checked at time 1) the wait is `⌊3599⌋ + 1 = 3600 ≥ 1`; after time passes
the window for the oldest entry the check opens again. -/
theorem C6_rate_limiter_boundary_witness :
    RateLimiter.check ⟨[0], 2⟩ 0 = some (true, 0) ∧
    RateLimiter.check ⟨[0], 1⟩ 1 = some (false, 3600) ∧
    RateLimiter.check ⟨[0, 10], 2⟩ 5000 = some (true, 0) := by
  refine ⟨?_, ?_, ?_⟩
  · refine (C6_rate_limiter_boundary [0] 2 0).2.1 ?_
    have h1 : _prune_expired ⟨[0], 2⟩ 0 = [(0 : ℚ)] := by
      simp only [_prune_expired, List.dropWhile_cons, DEFAULT_WINDOW_SECONDS]
      norm_num
    rw [h1]
    norm_num
  · have h1 : _prune_expired ⟨[0], 1⟩ 1 = [(0 : ℚ)] := by
      simp only [_prune_expired, List.dropWhile_cons, DEFAULT_WINDOW_SECONDS]
      norm_num
    have h := ((C6_rate_limiter_boundary [0] 1 1).2.2.1 0 [] h1 (by simp)).1
    rw [h]
    norm_num [DEFAULT_WINDOW_SECONDS]
  · refine (C6_rate_limiter_boundary [0, 10] 2 5000).2.2.2.2 0 [10] 5000 rfl
      (by norm_num [DEFAULT_WINDOW_SECONDS]) (by norm_num)

/-! ### Approval matching (C1) -/

theorem pyStrLtChars_irrefl : ∀ a : List Char, pyStrLtChars a a = false := by
  intro a
  induction a with
  | nil => rfl
  | cons x xs ih => simp [pyStrLtChars, ih]

theorem pyStrLtChars_trans :
    ∀ a b c : List Char, pyStrLtChars a b = true → pyStrLtChars b c = true →
      pyStrLtChars a c = true := by
  intro a
  induction a with
  | nil =>
    intro b c hab hbc
    cases b with
    | nil => simp [pyStrLtChars] at hab
    | cons y ys =>
      cases c with
      | nil => simp [pyStrLtChars] at hbc
      | cons z zs => simp [pyStrLtChars]
  | cons x xs ih =>
    intro b c hab hbc
    cases b with
    | nil => simp [pyStrLtChars] at hab
    | cons y ys =>
      cases c with
      | nil => simp [pyStrLtChars] at hbc
      | cons z zs =>
        simp only [pyStrLtChars, Bool.or_eq_true, Bool.and_eq_true,
          beq_iff_eq, decide_eq_true_eq] at hab hbc ⊢
        rcases hab with hab | ⟨rfl, hab⟩
        · rcases hbc with hbc | ⟨rfl, hbc⟩
          · exact Or.inl (lt_trans hab hbc)
          · exact Or.inl hab
        · rcases hbc with hbc | ⟨rfl, hbc⟩
          · exact Or.inl hbc
          · exact Or.inr ⟨rfl, ih ys zs hab hbc⟩

theorem pyStrLtChars_neg_trans :
    ∀ a b c : List Char, pyStrLtChars a b = false → pyStrLtChars b c = false →
      pyStrLtChars a c = false := by
  intro a
  induction a with
  | nil =>
    intro b c hab hbc
    cases b with
    | nil =>
      cases c with
      | nil => rfl
      | cons z zs => simp [pyStrLtChars] at hbc
    | cons y ys => simp [pyStrLtChars] at hab
  | cons x xs ih =>
    intro b c hab hbc
    cases c with
    | nil => rfl
    | cons z zs =>
      cases b with
      | nil => simp [pyStrLtChars] at hbc
      | cons y ys =>
        simp only [pyStrLtChars, Bool.or_eq_false_iff, Bool.and_eq_false_iff,
          beq_eq_false_iff_ne, ne_eq, decide_eq_false_iff_not, not_lt] at hab hbc ⊢
        obtain ⟨hyx, hab2⟩ := hab
        obtain ⟨hzy, hbc2⟩ := hbc
        refine ⟨le_trans hzy hyx, ?_⟩
        by_cases hxz : x = z
        · subst hxz
          have hxy : x = y := le_antisymm hzy hyx
          subst hxy
          rcases hab2 with h | h
          · exact absurd rfl h
          · rcases hbc2 with h2 | h2
            · exact absurd rfl h2
            · exact Or.inr (ih ys zs h h2)
        · exact Or.inl hxz

theorem pyStrLt_irrefl (a : String) : pyStrLt a a = false :=
  pyStrLtChars_irrefl a.toList

theorem pyStrLt_trans (a b c : String) (h1 : pyStrLt a b = true)
    (h2 : pyStrLt b c = true) : pyStrLt a c = true :=
  pyStrLtChars_trans a.toList b.toList c.toList h1 h2

theorem pyStrLt_neg_trans (a b c : String) (h1 : pyStrLt a b = false)
    (h2 : pyStrLt b c = false) : pyStrLt a c = false :=
  pyStrLtChars_neg_trans a.toList b.toList c.toList h1 h2

theorem foldBest_spec {α : Type} (key : α → String) :
    ∀ (rest : List α) (best : α),
      (foldBest key best rest = best ∨ foldBest key best rest ∈ rest) ∧
      pyStrLt (key (foldBest key best rest)) (key best) = false ∧
      ∀ g ∈ rest, pyStrLt (key (foldBest key best rest)) (key g) = false := by
  intro rest
  induction rest with
  | nil =>
    intro best
    exact ⟨Or.inl rfl, pyStrLt_irrefl _, by simp⟩
  | cons x xs ih =>
    intro best
    have hstep : ∀ b : α, foldBest key b (x :: xs)
        = foldBest key (if pyStrLt (key b) (key x) then x else b) xs := by
      intro b; rfl
    rw [hstep best]
    by_cases hbx : pyStrLt (key best) (key x) = true
    · rw [if_pos hbx]
      obtain ⟨hmem, hx, hall⟩ := ih x
      refine ⟨?_, ?_, ?_⟩
      · rcases hmem with h | h
        · exact Or.inr (by rw [h]; exact List.mem_cons_self x xs)
        · exact Or.inr (List.mem_cons_of_mem x h)
      · by_contra hres
        have hres' : pyStrLt (key (foldBest key x xs)) (key best) = true := by
          simpa using hres
        have hcontra := pyStrLt_trans _ _ _ hres' hbx
        rw [hx] at hcontra
        exact Bool.noConfusion hcontra
      · intro g hg
        rcases List.mem_cons.mp hg with rfl | hg
        · exact hx
        · exact hall g hg
    · rw [if_neg hbx]
      obtain ⟨hmem, hbest, hall⟩ := ih best
      refine ⟨?_, hbest, ?_⟩
      · rcases hmem with h | h
        · exact Or.inl h
        · exact Or.inr (List.mem_cons_of_mem x h)
      · intro g hg
        rcases List.mem_cons.mp hg with rfl | hg
        · exact pyStrLt_neg_trans _ _ _ hbest (by simpa using hbx)
        · exact hall g hg

theorem selectLatest_spec (l : List ApprovalFile) (f : ApprovalFile)
    (h : selectLatest l = some f) :
    f ∈ l ∧ ∀ g ∈ l, pyStrLt (sortKeyStr f) (sortKeyStr g) = false := by
  cases l with
  | nil => simp [selectLatest] at h
  | cons m rest =>
    rw [selectLatest, Option.some.injEq] at h
    subst h
    obtain ⟨hmem, hm, hall⟩ := foldBest_spec sortKeyStr rest m
    refine ⟨?_, ?_⟩
    · rcases hmem with h | h
      · rw [h]; exact List.mem_cons_self m rest
      · exact List.mem_cons_of_mem m h
    · intro g hg
      rcases List.mem_cons.mp hg with rfl | hg
      · exact hm
      · exact hall g hg

/-- C1: `find_approval` (i) returns a file only when that file is one of
the scanned approval files whose frontmatter `type` equals the action type
exactly, whose `status` is exactly `"approved"`, and whose every supplied
match field equals the file's field — case-insensitively when both are
strings, with a missing field read as `""` (`frontmatter.get(field, "")`);
(ii) returns `None` when no file satisfies all of this; (iii) the returned
file's `approved_at`-or-`created` sort key is maximal among all matching
files (so of two matches with different string `approved_at` values the
later one is returned); and (iv) whenever some file matches, a file is
returned. -/
theorem C1_find_approval_exact_and_safe
    (files : List ApprovalFile) (action_type : String)
    (mfs : List (String × Yaml)) :
    (∀ f, find_approval files action_type mfs = some f →
       f ∈ files ∧
       fmGet f.frontmatter "type" = some (Yaml.str action_type) ∧
       fmGet f.frontmatter "status" = some (Yaml.str "approved") ∧
       ∀ me ∈ mfs,
         matchValue (fmGetD f.frontmatter me.1 (Yaml.str "")) me.2 = true) ∧
    ((∀ f ∈ files, isMatch f action_type mfs = false) →
       find_approval files action_type mfs = none) ∧
    (∀ f, find_approval files action_type mfs = some f →
       ∀ g ∈ files, isMatch g action_type mfs = true →
         pyStrLt (sortKeyStr f) (sortKeyStr g) = false) ∧
    ((∃ f ∈ files, isMatch f action_type mfs = true) →
       ∃ f, find_approval files action_type mfs = some f) := by
  refine ⟨?_, ?_, ?_, ?_⟩
  · intro f h
    obtain ⟨hmem, -⟩ := selectLatest_spec _ f h
    obtain ⟨hmemf, hmatch⟩ := List.mem_filter.mp hmem
    simp only [isMatch, Bool.and_eq_true, beq_iff_eq, Bool.not_eq_true',
      fieldsMatch, List.all_eq_true] at hmatch
    exact ⟨hmemf, hmatch.1.1.2, hmatch.1.2, hmatch.2⟩
  · intro hall
    rw [find_approval, List.filter_eq_nil_iff.mpr (fun g hg => by
      rw [hall g hg]; exact Bool.false_ne_true)]
    rfl
  · intro f h g hg hmatch
    obtain ⟨-, hmax⟩ := selectLatest_spec _ f h
    exact hmax g (List.mem_filter.mpr ⟨hg, hmatch⟩)
  · intro ⟨f, hf, hmatch⟩
    have : f ∈ files.filter (fun x => isMatch x action_type mfs) :=
      List.mem_filter.mpr ⟨hf, hmatch⟩
    rw [find_approval]
    cases hcase : files.filter (fun x => isMatch x action_type mfs) with
    | nil => rw [hcase] at this; simp at this
    | cons m rest => exact ⟨foldBest sortKeyStr m rest, rfl⟩

/-- Two concrete approval files: same type/status, match field `to` in
different letter cases, distinct `approved_at` timestamps. -/
def approvalA : ApprovalFile :=
  ⟨"a.md", [("type", Yaml.str "email_send"), ("status", Yaml.str "approved"),
            ("to", Yaml.str "Bob@Example.com"),
            ("approved_at", Yaml.str "2025-01-01T00:00:00Z")]⟩

def approvalB : ApprovalFile :=
  ⟨"b.md", [("type", Yaml.str "email_send"), ("status", Yaml.str "approved"),
            ("to", Yaml.str "bob@example.com"),
            ("approved_at", Yaml.str "2025-02-01T00:00:00Z")]⟩

/-- Witness for C1 at a concrete approval set: with two matching files the
returned one (`approvalB`, the later `approved_at`) satisfies every claimed
property and has the maximal sort key; with no matching file the result is
`None`. -/
theorem C1_find_approval_exact_and_safe_witness :
    (approvalB ∈ [approvalA, approvalB] ∧
     fmGet approvalB.frontmatter "type" = some (Yaml.str "email_send") ∧
     fmGet approvalB.frontmatter "status" = some (Yaml.str "approved") ∧
     ∀ me ∈ [("to", Yaml.str "BOB@EXAMPLE.COM")],
       matchValue (fmGetD approvalB.frontmatter me.1 (Yaml.str "")) me.2
         = true) ∧
    (∀ g ∈ [approvalA, approvalB],
       isMatch g "email_send" [("to", Yaml.str "BOB@EXAMPLE.COM")] = true →
       pyStrLt (sortKeyStr approvalB) (sortKeyStr g) = false) ∧
    find_approval [approvalA, approvalB] "email_reply"
      [("to", Yaml.str "BOB@EXAMPLE.COM")] = none :=
  ⟨(C1_find_approval_exact_and_safe [approvalA, approvalB] "email_send"
      [("to", Yaml.str "BOB@EXAMPLE.COM")]).1 approvalB (by decide),
   (C1_find_approval_exact_and_safe [approvalA, approvalB] "email_send"
      [("to", Yaml.str "BOB@EXAMPLE.COM")]).2.2.1 approvalB (by decide),
   (C1_find_approval_exact_and_safe [approvalA, approvalB] "email_reply"
      [("to", Yaml.str "BOB@EXAMPLE.COM")]).2.1 (by decide)⟩


/-! ### Approval consumption (C3) -/

theorem lookup_map_set_self {β : Type} (k : String) (v : β) :
    ∀ l : List (String × β), (l.lookup k).isSome = true →
      (l.map (fun kv => if kv.1 == k then (kv.1, v) else kv)).lookup k
        = some v := by
  intro l
  induction l with
  | nil => intro h; simp [List.lookup] at h
  | cons p t ih =>
    obtain ⟨a, b⟩ := p
    intro h
    by_cases hk : a = k
    · subst hk
      simp only [List.map_cons, if_pos (by simp : ((a, b).1 == a) = true)]
      simp [List.lookup]
    · simp only [List.map_cons,
        if_neg (by simp [hk] : ¬ ((a, b).1 == k) = true)]
      rw [List.lookup, show (k == a) = false from by simp [Ne.symm hk]]
      rw [List.lookup, show (k == a) = false from by simp [Ne.symm hk]] at h
      exact ih h

theorem lookup_map_set_ne {β : Type} (k k' : String) (v : β) (hne : k' ≠ k) :
    ∀ l : List (String × β),
      (l.map (fun kv => if kv.1 == k then (kv.1, v) else kv)).lookup k'
        = l.lookup k' := by
  intro l
  induction l with
  | nil => rfl
  | cons p t ih =>
    obtain ⟨a, b⟩ := p
    by_cases hak : a = k
    · subst hak
      simp only [List.map_cons, if_pos (by simp : ((a, b).1 == a) = true)]
      rw [List.lookup, List.lookup,
        show (k' == a) = false from by simp [hne]]
      exact ih
    · simp only [List.map_cons,
        if_neg (by simp [hak] : ¬ ((a, b).1 == k) = true)]
      by_cases ha' : k' = a
      · subst ha'
        rw [List.lookup, List.lookup, show (k' == k') = true from by simp]
      · rw [List.lookup, List.lookup,
          show (k' == a) = false from by simp [ha']]
        exact ih

theorem lookup_append_single_ne {β : Type} (k k' : String) (v : β)
    (hne : k' ≠ k) :
    ∀ l : List (String × β), (l ++ [(k, v)]).lookup k' = l.lookup k' := by
  intro l
  induction l with
  | nil =>
    rw [List.nil_append]
    simp [List.lookup, show (k' == k) = false from by simp [hne]]
  | cons p t ih =>
    obtain ⟨a, b⟩ := p
    by_cases ha : k' = a
    · subst ha
      rw [List.cons_append, List.lookup, List.lookup,
        show (k' == k') = true from by simp]
    · rw [List.cons_append, List.lookup, List.lookup,
        show (k' == a) = false from by simp [ha]]
      exact ih

theorem lookup_append_right {β : Type} (k : String) :
    ∀ l₁ l₂ : List (String × β), l₁.lookup k = none →
      (l₁ ++ l₂).lookup k = l₂.lookup k := by
  intro l₁ l₂
  induction l₁ with
  | nil => intro _; rfl
  | cons p t ih =>
    obtain ⟨a, b⟩ := p
    intro h
    by_cases ha : k = a
    · rw [List.lookup, show (k == a) = true from by simp [ha]] at h
      exact Option.noConfusion h
    · rw [List.lookup, show (k == a) = false from by simp [ha]] at h
      rw [List.cons_append, List.lookup,
        show (k == a) = false from by simp [ha]]
      exact ih h

theorem lookup_assocSet_self {β : Type} (l : List (String × β)) (k : String)
    (v : β) : (assocSet l k v).lookup k = some v := by
  rw [assocSet]
  by_cases h : (l.lookup k).isSome = true
  · rw [if_pos h]
    exact lookup_map_set_self k v l h
  · rw [if_neg h]
    have hnone : l.lookup k = none := by
      cases hc : l.lookup k
      · rfl
      · rw [hc] at h; simp at h
    rw [lookup_append_right k l [(k, v)] hnone, List.lookup,
      show (k == k) = true from by simp]

theorem lookup_assocSet_ne {β : Type} (l : List (String × β)) (k k' : String)
    (v : β) (hne : k' ≠ k) : (assocSet l k v).lookup k' = l.lookup k' := by
  rw [assocSet]
  by_cases h : (l.lookup k).isSome = true
  · rw [if_pos h]
    exact lookup_map_set_ne k k' v hne l
  · rw [if_neg h]
    exact lookup_append_single_ne k k' v hne l

theorem lookup_filter_ne {β : Type} (k : String) :
    ∀ l : List (String × β),
      (l.filter (fun kv => kv.1 != k)).lookup k = none := by
  intro l
  induction l with
  | nil => rfl
  | cons p t ih =>
    obtain ⟨a, b⟩ := p
    rw [List.filter_cons]
    by_cases ha : a = k
    · rw [if_neg (by simp [bne, ha] : ¬ (((a, b).1 != k) = true))]
      exact ih
    · rw [if_pos (by simp [bne, ha] : (((a, b).1 != k) = true)),
        List.lookup, show (k == a) = false from by simp [Ne.symm ha]]
      exact ih

/-- C3: consuming an approval file present in `Approved/` stamps its
frontmatter with `status: done` and a `completed_at` timestamp **before**
the physical move (the operation trace is `[stampMetadata, move]`), and
afterwards the source name no longer resolves in `Approved/` while a file
of the same name resolves in `Done/` carrying the stamped frontmatter and
the unchanged body. -/
theorem C3_consume_approval_move_not_copy
    (approved done : VaultDir) (name : String) (now : String) (fd : FileData)
    (h : approved.lookup name = some fd) :
    ∃ approved' done' ops,
      consume_approval approved done name now = some (approved', done', ops) ∧
      approved'.lookup name = none ∧
      (∃ fd', done'.lookup name = some fd' ∧
        fd'.frontmatter.lookup "status" = some (Yaml.str "done") ∧
        fd'.frontmatter.lookup "completed_at" = some (Yaml.str now) ∧
        fd'.body = fd.body) ∧
      ops = [FsOp.stampMetadata name, FsOp.move name] := by
  rw [consume_approval, h]
  refine ⟨_, _, _, rfl, ?_,
    ⟨update_frontmatter fd
       [("status", Yaml.str "done"), ("completed_at", Yaml.str now)],
     ?_, ?_, ?_, rfl⟩, rfl⟩
  · exact lookup_filter_ne name _
  · exact lookup_assocSet_self done name _
  · show (dictUpdate fd.frontmatter
      [("status", Yaml.str "done"), ("completed_at", Yaml.str now)]).lookup
        "status" = some (Yaml.str "done")
    rw [dictUpdate, List.foldl_cons, List.foldl_cons, List.foldl_nil, dictSet,
      dictSet,
      lookup_assocSet_ne (assocSet fd.frontmatter "status" (Yaml.str "done"))
        "completed_at" "status" (Yaml.str now) (by decide),
      lookup_assocSet_self fd.frontmatter "status" (Yaml.str "done")]
  · show (dictUpdate fd.frontmatter
      [("status", Yaml.str "done"), ("completed_at", Yaml.str now)]).lookup
        "completed_at" = some (Yaml.str now)
    rw [dictUpdate, List.foldl_cons, List.foldl_cons, List.foldl_nil, dictSet,
      dictSet, lookup_assocSet_self]

/-- Witness for C3 at a concrete vault: one approved file, consumed at a
fixed timestamp. -/
theorem C3_consume_approval_move_not_copy_witness :
    ∃ approved' done' ops,
      consume_approval
        [("a.md", ⟨[("type", Yaml.str "email_send"),
                    ("status", Yaml.str "approved")], "body"⟩)]
        [] "a.md" "2025-03-01T00:00:00Z"
        = some (approved', done', ops) ∧
      approved'.lookup "a.md" = none ∧
      (∃ fd', done'.lookup "a.md" = some fd' ∧
        fd'.frontmatter.lookup "status" = some (Yaml.str "done") ∧
        fd'.frontmatter.lookup "completed_at"
          = some (Yaml.str "2025-03-01T00:00:00Z") ∧
        fd'.body = (⟨[("type", Yaml.str "email_send"),
                      ("status", Yaml.str "approved")], "body"⟩ : FileData).body) ∧
      ops = [FsOp.stampMetadata "a.md", FsOp.move "a.md"] :=
  C3_consume_approval_move_not_copy
    [("a.md", ⟨[("type", Yaml.str "email_send"),
                ("status", Yaml.str "approved")], "body"⟩)]
    [] "a.md" "2025-03-01T00:00:00Z" _ (by decide)

/-! ### Frontmatter round-trip (C10) -/

/-- A non-empty, all-alphanumeric word at the character level. -/
def plainChars (l : List Char) : Prop :=
  l ≠ [] ∧ ∀ c ∈ l, c.isAlphanum = true

theorem alnum_not_ws (c : Char) (h : c.isAlphanum = true) :
    isWSChar c = false := by
  cases hc : isWSChar c
  · rfl
  · exfalso
    simp only [isWSChar, Bool.or_eq_true, beq_iff_eq] at hc
    rcases hc with ((((hc | hc) | hc) | hc) | hc) | hc <;>
      (subst hc; exact absurd h (by decide))

theorem alnum_ne_nl (c : Char) (h : c.isAlphanum = true) : c ≠ '\n' :=
  fun he => absurd (he ▸ h) (by decide)

theorem alnum_ne_dash (c : Char) (h : c.isAlphanum = true) : c ≠ '-' :=
  fun he => absurd (he ▸ h) (by decide)

theorem alnum_ne_colon (c : Char) (h : c.isAlphanum = true) : c ≠ ':' :=
  fun he => absurd (he ▸ h) (by decide)

theorem splitOnNlDashes_no_nl (cs : List Char) (hnl : ∀ c ∈ cs, c ≠ '\n') :
    ∀ rest, splitOnNlDashes (cs ++ rest)
      = (splitOnNlDashes rest).map (fun p => (cs ++ p.1, p.2)) := by
  induction cs with
  | nil =>
    intro rest
    rw [List.nil_append]
    cases splitOnNlDashes rest <;> simp
  | cons c cs' ih =>
    intro rest
    have hc : c ≠ '\n' := hnl c (List.mem_cons_self c cs')
    rw [List.cons_append, splitOnNlDashes,
      if_neg (by simp [hc]), ih (fun x hx => hnl x (List.mem_cons_of_mem c hx))]
    cases splitOnNlDashes rest <;> simp

theorem splitOnNlDashes_at_close (t : List Char) :
    splitOnNlDashes ('\n' :: '-' :: '-' :: '-' :: t) = some ([], t) := by
  rw [splitOnNlDashes, if_pos (by simp [List.isPrefixOf])]
  rfl

theorem splitOnNlDashes_nl_no_dash (c : Char) (t : List Char) (hc : c ≠ '-') :
    splitOnNlDashes ('\n' :: c :: t)
      = (splitOnNlDashes (c :: t)).map (fun p => ('\n' :: p.1, p.2)) := by
  rw [splitOnNlDashes, if_neg (by simp [List.isPrefixOf, Ne.symm hc])]

theorem splitOnNlDashes_nl_headalnum (u : List Char)
    (hu : ∃ c t, u = c :: t ∧ c ≠ '-') :
    splitOnNlDashes ('\n' :: u)
      = (splitOnNlDashes u).map (fun p => ('\n' :: p.1, p.2)) := by
  obtain ⟨c, t, rfl, hc⟩ := hu
  exact splitOnNlDashes_nl_no_dash c t hc

theorem line_no_nl (k v : List Char) (hk : ∀ c ∈ k, c.isAlphanum = true)
    (hv : ∀ c ∈ v, c.isAlphanum = true) :
    ∀ c ∈ k ++ ':' :: ' ' :: v, c ≠ '\n' := by
  intro c hcm
  rcases List.mem_append.mp hcm with hc | hc
  · exact alnum_ne_nl c (hk c hc)
  · rcases List.mem_cons.mp hc with rfl | hc
    · decide
    · rcases List.mem_cons.mp hc with rfl | hc
      · decide
      · exact alnum_ne_nl c (hv c hc)

theorem split_yamlDump (tail : List Char) :
    ∀ fm : List (List Char × List Char), fm ≠ [] →
      (∀ kv ∈ fm, plainChars kv.1 ∧ plainChars kv.2) →
      splitOnNlDashes (yamlDumpChars fm ++ '-' :: '-' :: '-' :: tail)
        = some (['\n'].intercalate
            (fm.map (fun kv => kv.1 ++ ':' :: ' ' :: kv.2)), tail) := by
  intro fm
  induction fm with
  | nil => intro h; exact absurd rfl h
  | cons kv fm' ih =>
    intro _ hwf
    obtain ⟨⟨hk1, hk2⟩, hv1, hv2⟩ := hwf kv (List.mem_cons_self kv fm')
    have hline := line_no_nl kv.1 kv.2 hk2 hv2
    cases fm' with
    | nil =>
      have hshape : yamlDumpChars [kv] ++ '-' :: '-' :: '-' :: tail
          = (kv.1 ++ ':' :: ' ' :: kv.2) ++
              ('\n' :: '-' :: '-' :: '-' :: tail) := by
        simp [yamlDumpChars]
      rw [hshape, splitOnNlDashes_no_nl _ hline, splitOnNlDashes_at_close]
      simp [List.intercalate]
    | cons kv2 fm'' =>
      obtain ⟨⟨hk1', hk2'⟩, -⟩ := hwf kv2 (by simp)
      obtain ⟨c2, k2', hk2eq⟩ := List.exists_cons_of_ne_nil hk1'
      have hshape : yamlDumpChars (kv :: kv2 :: fm'') ++ '-' :: '-' :: '-' :: tail
          = (kv.1 ++ ':' :: ' ' :: kv.2) ++
              ('\n' :: (yamlDumpChars (kv2 :: fm'') ++ '-' :: '-' :: '-' :: tail)) := by
        simp [yamlDumpChars]
      rw [hshape, splitOnNlDashes_no_nl _ hline]
      have hu : ∃ c t,
          yamlDumpChars (kv2 :: fm'') ++ '-' :: '-' :: '-' :: tail
            = c :: t ∧ c ≠ '-' := by
        refine ⟨c2, k2' ++ ':' :: ' ' :: kv2.2 ++ '\n' ::
          (yamlDumpChars fm'' ++ '-' :: '-' :: '-' :: tail), ?_, ?_⟩
        · simp [yamlDumpChars, hk2eq]
        · exact alnum_ne_dash c2
            (hk2' c2 (by rw [hk2eq]; exact List.mem_cons_self c2 k2'))
      rw [splitOnNlDashes_nl_headalnum _ hu,
        ih (by simp) (fun x hx => hwf x (List.mem_cons_of_mem kv hx))]
      simp [List.intercalate]

theorem splitColonSpace_no_colon (k : List Char) (hk : ∀ c ∈ k, c ≠ ':') :
    ∀ rest, splitColonSpace (k ++ rest)
      = (splitColonSpace rest).map (fun p => (k ++ p.1, p.2)) := by
  induction k with
  | nil =>
    intro rest
    rw [List.nil_append]
    cases splitColonSpace rest <;> simp
  | cons c k' ih =>
    intro rest
    have hc : c ≠ ':' := hk c (List.mem_cons_self c k')
    rw [List.cons_append, splitColonSpace, if_neg (by simp [hc]),
      ih (fun x hx => hk x (List.mem_cons_of_mem c hx))]
    cases splitColonSpace rest <;> simp

theorem splitColonSpace_at (v : List Char) :
    splitColonSpace (':' :: ' ' :: v) = some ([], v) := by
  rw [splitColonSpace, if_pos (by simp)]
  rfl

theorem parseYamlLine_line (k v : List Char) (hk1 : k ≠ [])
    (hk2 : ∀ c ∈ k, c.isAlphanum = true) :
    parseYamlLine (k ++ ':' :: ' ' :: v) = some (k, v) := by
  rw [parseYamlLine,
    splitColonSpace_no_colon k (fun c hc => alnum_ne_colon c (hk2 c hc))
      (':' :: ' ' :: v),
    splitColonSpace_at]
  simp [hk1]

theorem yamlLoad_group (fm : List (List Char × List Char)) (hfm : fm ≠ [])
    (hwf : ∀ kv ∈ fm, plainChars kv.1 ∧ plainChars kv.2) :
    yamlLoadChars (['\n'].intercalate
      (fm.map (fun kv => kv.1 ++ ':' :: ' ' :: kv.2))) = some fm := by
  have hsplit : (['\n'].intercalate
      (fm.map (fun kv => kv.1 ++ ':' :: ' ' :: kv.2))).splitOn '\n'
      = fm.map (fun kv => kv.1 ++ ':' :: ' ' :: kv.2) := by
    refine List.splitOn_intercalate _ '\n' ?_ ?_
    · intro l hl
      obtain ⟨kv, hkv, rfl⟩ := List.mem_map.mp hl
      obtain ⟨⟨-, hk2⟩, -, hv2⟩ := hwf kv hkv
      intro hmem
      exact line_no_nl kv.1 kv.2 hk2 hv2 '\n' hmem rfl
    · simpa using hfm
  have hne : (['\n'].intercalate
      (fm.map (fun kv => kv.1 ++ ':' :: ' ' :: kv.2))).isEmpty = false := by
    cases fm with
    | nil => exact absurd rfl hfm
    | cons kv fm' =>
      obtain ⟨⟨hk1, -⟩, -⟩ := hwf kv (List.mem_cons_self kv fm')
      obtain ⟨c1, k1', hke⟩ := List.exists_cons_of_ne_nil hk1
      cases fm' with
      | nil => simp [List.intercalate, hke]
      | cons kv2 fm'' => simp [List.intercalate, hke]
  rw [yamlLoadChars, if_neg (by simp [hne]), hsplit]
  clear hsplit hne hfm
  induction fm with
  | nil => rfl
  | cons kv fm' ih =>
    obtain ⟨⟨hk1, hk2⟩, -⟩ := hwf kv (List.mem_cons_self kv fm')
    rw [List.map_cons, List.mapM_cons,
      parseYamlLine_line kv.1 kv.2 hk1 hk2,
      ih (fun x hx => hwf x (List.mem_cons_of_mem kv hx))]
    rfl

theorem matchFMPattern_dashes (rest : List Char) :
    matchFMPattern ('-' :: '-' :: '-' :: rest)
      = (tryCloseFrom rest (nlIdxsDesc (rest.takeWhile isWSChar))).map
          (fun p => (p.1, p.2.dropWhile isWSChar)) := rfl

theorem matchFMPattern_format (fmC : List (List Char × List Char))
    (body2 : List Char) (hfm : fmC ≠ [])
    (hwf : ∀ kv ∈ fmC, plainChars kv.1 ∧ plainChars kv.2) :
    matchFMPattern
      ('-' :: '-' :: '-' :: '\n' ::
        (yamlDumpChars fmC ++ '-' :: '-' :: '-' :: body2))
      = some (['\n'].intercalate
          (fmC.map (fun kv => kv.1 ++ ':' :: ' ' :: kv.2)),
        body2.dropWhile isWSChar) := by
  obtain ⟨kv, fm', rfl⟩ := List.exists_cons_of_ne_nil hfm
  obtain ⟨⟨hk1, hk2⟩, -⟩ := hwf kv (List.mem_cons_self kv fm')
  obtain ⟨c1, k1', hke⟩ := List.exists_cons_of_ne_nil hk1
  have hheadY : ∃ t0, yamlDumpChars (kv :: fm') ++ '-' :: '-' :: '-' :: body2
      = c1 :: t0 :=
    ⟨k1' ++ ':' :: ' ' :: kv.2 ++ '\n' ::
      (yamlDumpChars fm' ++ '-' :: '-' :: '-' :: body2),
     by simp [yamlDumpChars, hke]⟩
  obtain ⟨t0, hY⟩ := hheadY
  have hc1 : isWSChar c1 = false :=
    alnum_not_ws c1 (hk2 c1 (by rw [hke]; exact List.mem_cons_self c1 k1'))
  have htake : (('\n' ::
      (yamlDumpChars (kv :: fm') ++ '-' :: '-' :: '-' :: body2)).takeWhile
        isWSChar) = ['\n'] := by
    rw [List.takeWhile_cons, if_pos (by decide), hY, List.takeWhile_cons,
      if_neg (by simp [hc1])]
  rw [matchFMPattern_dashes, htake]
  rw [show nlIdxsDesc ['\n'] = [0] from rfl, tryCloseFrom]
  rw [show ('\n' :: (yamlDumpChars (kv :: fm') ++ '-' :: '-' :: '-' :: body2)).drop
      (0 + 1) = yamlDumpChars (kv :: fm') ++ '-' :: '-' :: '-' :: body2 from rfl]
  rw [split_yamlDump body2 (kv :: fm') (by simp) hwf]
  rfl

theorem mk_toList (s : String) : String.mk s.toList = s := by
  cases s
  rfl

theorem extract_frontmatter_eq (content : String) (g bodyChars : List Char)
    (pairs : List (List Char × List Char))
    (hm : matchFMPattern content.toList = some (g, bodyChars))
    (hl : yamlLoadChars g = some pairs) :
    extract_frontmatter content
      = (pairs.map (fun kv => (String.mk kv.1, String.mk kv.2)),
         String.mk bodyChars) := by
  simp only [extract_frontmatter, hm, hl]

/-- C10: for every non-empty frontmatter mapping whose keys and values are
plain alphanumeric words (hence without newlines, and not parseable as
numeric/boolean/null YAML scalars) and every body that does not start with
a whitespace character, `extract_frontmatter` inverts
`format_with_frontmatter` exactly — the original mapping and body come
back; and with an empty mapping `format_with_frontmatter` returns the body
unchanged. -/
theorem C10_frontmatter_roundtrip :
    (∀ (fm : List (String × String)) (body : String),
       fm ≠ [] →
       (fm.map Prod.fst).Nodup →
       (∀ kv ∈ fm, isPlainWord kv.1 = true ∧ isPlainWord kv.2 = true) →
       (∀ c, body.toList.head? = some c → isWSChar c = false) →
       extract_frontmatter (format_with_frontmatter fm body) = (fm, body)) ∧
    (∀ body : String, format_with_frontmatter [] body = body) := by
  constructor
  · intro fm body h1 _hnodup h2 h3
    have hfmCne : fm.map (fun kv => (kv.1.toList, kv.2.toList)) ≠ [] := by
      simp [h1]
    have hwfC : ∀ kv ∈ fm.map (fun kv => (kv.1.toList, kv.2.toList)),
        plainChars kv.1 ∧ plainChars kv.2 := by
      intro kv hkv
      obtain ⟨kv0, hkv0, rfl⟩ := List.mem_map.mp hkv
      obtain ⟨ha, hb⟩ := h2 kv0 hkv0
      simp only [isPlainWord, Bool.and_eq_true, Bool.not_eq_true',
        List.all_eq_true] at ha hb
      refine ⟨⟨?_, fun c hc => ha.1.1.2 c hc⟩,
        ?_, fun c hc => hb.1.1.2 c hc⟩
      · have := ha.1.1.1
        simpa using this
      · have := hb.1.1.1
        simpa using this
    have hdrop : (match body.toList with
        | [] => ([] : List Char)
        | c :: _ =>
          if c == '\n' then body.toList else '\n' :: body.toList).dropWhile
          isWSChar = body.toList := by
      cases hb : body.toList with
      | nil => rfl
      | cons c t =>
        have hws : isWSChar c = false := h3 c (by rw [hb]; rfl)
        have hnl : ¬ ((c == '\n') = true) := by
          intro hcc
          have hc' : c = '\n' := by simpa using hcc
          rw [hc'] at hws
          exact absurd hws (by decide)
        show List.dropWhile isWSChar
            (if c == '\n' then c :: t else '\n' :: c :: t) = c :: t
        rw [if_neg hnl, List.dropWhile_cons, if_pos (by decide),
          List.dropWhile_cons, if_neg (by simp [hws])]
    have hformat : format_with_frontmatter fm body
        = String.mk ('-' :: '-' :: '-' :: '\n' ::
            (yamlDumpChars (fm.map (fun kv => (kv.1.toList, kv.2.toList)))
              ++ '-' :: '-' :: '-' ::
              (match body.toList with
               | [] => ([] : List Char)
               | c :: _ =>
                 if c == '\n' then body.toList
                 else '\n' :: body.toList))) := by
      rw [format_with_frontmatter, if_neg (by simp [h1])]
      rfl
    have hmatch : matchFMPattern (format_with_frontmatter fm body).toList
        = some (['\n'].intercalate
            ((fm.map (fun kv => (kv.1.toList, kv.2.toList))).map
              (fun kv => kv.1 ++ ':' :: ' ' :: kv.2)), body.toList) := by
      rw [hformat]
      rw [show (String.mk ('-' :: '-' :: '-' :: '\n' ::
          (yamlDumpChars (fm.map (fun kv => (kv.1.toList, kv.2.toList)))
            ++ '-' :: '-' :: '-' ::
            (match body.toList with
             | [] => ([] : List Char)
             | c :: _ =>
               if c == '\n' then body.toList
               else '\n' :: body.toList)))).toList
        = '-' :: '-' :: '-' :: '\n' ::
            (yamlDumpChars (fm.map (fun kv => (kv.1.toList, kv.2.toList)))
              ++ '-' :: '-' :: '-' ::
              (match body.toList with
               | [] => ([] : List Char)
               | c :: _ =>
                 if c == '\n' then body.toList
                 else '\n' :: body.toList)) from rfl]
      rw [matchFMPattern_format _ _ hfmCne hwfC, hdrop]
    have hload := yamlLoad_group _ hfmCne hwfC
    rw [extract_frontmatter_eq _ _ _ _ hmatch hload]
    have hback : (fm.map (fun kv => (kv.1.toList, kv.2.toList))).map
        (fun kv => (String.mk kv.1, String.mk kv.2)) = fm := by
      rw [List.map_map]
      have hid : ((fun kv : List Char × List Char =>
          (String.mk kv.1, String.mk kv.2)) ∘
          fun kv : String × String => (kv.1.toList, kv.2.toList))
          = fun kv : String × String => kv := by
        funext kv
        simp [Function.comp, mk_toList]
      rw [hid]
      exact List.map_id' fm
    rw [hback, mk_toList]
  · intro body
    rfl

/-- Witness for C10 at a concrete mapping and body. -/
theorem C10_frontmatter_roundtrip_witness :
    extract_frontmatter (format_with_frontmatter
        [("type", "email"), ("status", "pending")] "# Title")
      = ([("type", "email"), ("status", "pending")], "# Title") ∧
    format_with_frontmatter [] "# notes" = "# notes" :=
  ⟨C10_frontmatter_roundtrip.1 _ _ (by decide) (by decide) (by decide)
     (fun c hc => by
       rw [show ("# Title" : String).toList.head? = some '#' from rfl] at hc
       cases hc
       decide),
   C10_frontmatter_roundtrip.2 "# notes"⟩
